import Mathlib

/-!
Verification of the bogo binary serialization codec.

The development shallowly embeds the codec: byte buffers are lists of
natural numbers below 256, Go unsigned 64-bit integers are naturals with
explicit bounds, Go signed 64-bit integers are integers with explicit
bounds, and float64 values are represented by their IEEE-754 bit pattern
(the codec itself only manipulates the bits, via Float64bits and
Float64frombits).  Fallible Go functions return Except values; a Go
runtime panic from slicing past the end of a buffer is modelled by the
dedicated error value sliceOutOfRange.  The mutually recursive decoding
functions carry an explicit fuel argument; every nested call strictly
shrinks the slice being decoded, so fuel equal to the length of the
buffer plus one always suffices, and the public entry points supply
exactly that.
-/

set_option maxRecDepth 10000

namespace Bogo

/-! ## Type tag constants (types.go) -/

def typeNull : Nat := 0
def typeBoolTrue : Nat := 1
def typeBoolFalse : Nat := 2
def typeString : Nat := 3
def typeByte : Nat := 4
def typeInt : Nat := 5
def typeUint : Nat := 6
def typeFloat : Nat := 7
def typeBlob : Nat := 8
def typeTimestamp : Nat := 9
def typeUntypedList : Nat := 10
def typeTypedList : Nat := 11
def typeObject : Nat := 12

/-- The single wire-format version byte. -/
def versionByte : Nat := 0

/-! ## Varint codec (encoding/binary)

putUvarint mirrors binary.PutUvarint: emit continuation bytes of seven
payload bits until the remaining value is below 128. -/

def putUvarintGo : Nat → Nat → List Nat
  | 0, _ => []
  | fuel + 1, u =>
    if u < 128 then [u] else (u % 128 + 128) :: putUvarintGo fuel (u / 128)

/-- binary.PutUvarint writes into a ten-byte scratch (MaxVarintLen64);
ten seven-bit groups always suffice for a 64-bit value, so the loop
bound is part of the Go contract rather than an approximation. -/
def putUvarint (u : Nat) : List Nat := putUvarintGo 10 u

/-- binary.Uvarint.  The accumulator x collects the little-endian base-128
payload, i counts bytes read, s is the current shift.  The result is none
exactly when Go reports n less than or equal to zero: the buffer ends
before the varint does, an eleventh byte is reached, or the tenth byte
carries more than the one remaining bit of a 64-bit value. -/
def uvarintGo : List Nat → Nat → Nat → Nat → Option (Nat × Nat)
  | [], _, _, _ => none
  | b :: rest, i, s, x =>
    if i = 10 then none
    else if b < 128 then
      if i = 9 ∧ 1 < b then none
      else some (x + b * 2 ^ s, i + 1)
    else uvarintGo rest (i + 1) (s + 7) (x + b % 128 * 2 ^ s)

def uvarint (data : List Nat) : Option (Nat × Nat) :=
  uvarintGo data 0 0 0

/-- binary.PutVarint zig-zag transform on an int64 value. -/
def zigzag (i : Int) : Nat :=
  (if 0 ≤ i then 2 * i else -2 * i - 1).toNat

/-- binary.Varint undoes the zig-zag transform after uvarint decoding. -/
def unzigzag (u : Nat) : Int :=
  if u % 2 = 0 then (u / 2 : Nat) else -((u / 2 : Nat) : Int) - 1

def putVarint (i : Int) : List Nat :=
  putUvarint (zigzag i)

/-! ## Errors -/

/-- Errors produced below the version-byte layer.  Go returns string
errors; here each construction site is mapped onto a small enumeration.
sliceOutOfRange stands for a Go slice-bounds panic, and fuelOut is the
artifact of the explicit fuel (never reached when the fuel is at least
the buffer length plus one). -/
inductive InnerErr where
  | insufficientData
  | varintFailed
  | invalidUtf8
  | unsupportedType (t : Nat)
  | notImplemented
  | depthExceeded
  | sizeExceeded
  | blobTooLarge
  | sliceOutOfRange
  | fuelOut
  deriving DecidableEq, Repr

/-- Errors of the top-level Decoder.Decode: fewer than two bytes, a
rejected version byte, or an error from the layers below. -/
inductive TopErr where
  | insufficientTop
  | unsupportedVersion (v : Nat)
  | inner (e : InnerErr)
  deriving DecidableEq, Repr

/-- Errors of the encoder. -/
inductive EncErr where
  | unsupportedInput
  | keyTooLong
  | maxDepthExceeded
  | invalidUtf8String
  deriving DecidableEq, Repr

/-! ## Go slice, little-endian and int64 helpers -/

/-- The Go slice expression data[a:b] (contents only). -/
def goSlice (data : List Nat) (a b : Nat) : List Nat :=
  (data.take b).drop a

/-- Reinterpret an unsigned 64-bit value as a signed one, as the Go
conversion int64(u) does. -/
def toInt64 (u : Nat) : Int :=
  if u < 2 ^ 63 then (u : Int) else (u : Int) - 2 ^ 64

/-- Little-endian read of eight bytes, binary.LittleEndian.Uint64. -/
def leUint64 (b0 b1 b2 b3 b4 b5 b6 b7 : Nat) : Nat :=
  b0 + b1 * 2 ^ 8 + b2 * 2 ^ 16 + b3 * 2 ^ 24 + b4 * 2 ^ 32 +
    b5 * 2 ^ 40 + b6 * 2 ^ 48 + b7 * 2 ^ 56

/-- Little-endian bytes of a 64-bit value, binary.LittleEndian.PutUint64. -/
def leBytes64 (u : Nat) : List Nat :=
  [u % 256, u / 2 ^ 8 % 256, u / 2 ^ 16 % 256, u / 2 ^ 24 % 256,
   u / 2 ^ 32 % 256, u / 2 ^ 40 % 256, u / 2 ^ 48 % 256, u / 2 ^ 56 % 256]

/-! ## Numeric codecs (draft file part 007) -/

/-- encodeUint: type byte, one length byte, then the uvarint body. -/
def encodeUint (u : Nat) : List Nat :=
  let v := putUvarint u
  typeUint :: v.length :: v

/-- encodeInt: type byte, one length byte, then the zig-zag varint body. -/
def encodeInt (i : Int) : List Nat :=
  let v := putVarint i
  typeInt :: v.length :: v

def decodeUint (data : List Nat) : Except InnerErr Nat :=
  match uvarint data with
  | some (v, _) => .ok v
  | none => .error .varintFailed

def decodeInt (data : List Nat) : Except InnerErr Int :=
  match uvarint data with
  | some (v, _) => .ok (unzigzag v)
  | none => .error .varintFailed

/-- decomposeFloat64 on the bit pattern of a float64: the packed
sign-and-exponent word and the 52-bit mantissa. -/
def decomposeFloat64 (bits : Nat) : Nat × Nat :=
  let sign := bits / 2 ^ 63
  let exponent := bits / 2 ^ 52 % 2048
  (sign * 2 ^ 15 + exponent, bits % 2 ^ 52)

/-- encodeFloat: type byte, a length byte set to the mantissa varint
length PLUS FOUR, the two little-endian signExp bytes, then the mantissa
uvarint.  (The written length byte is the total size of the returned
buffer, kind and length bytes included.) -/
def encodeFloat (bits : Nat) : List Nat :=
  let se := (decomposeFloat64 bits).1
  let mv := putUvarint (decomposeFloat64 bits).2
  typeFloat :: (mv.length + 4) :: se % 256 :: se / 256 % 256 :: mv

/-- decodeFloat rebuilds the float64 bit pattern from the signExp word
and the mantissa varint; extra trailing bytes after the varint are
ignored, exactly as binary.Uvarint ignores them. -/
def decodeFloat (data : List Nat) : Except InnerErr Nat :=
  match data with
  | [] => .error .insufficientData
  | [_] => .error .sliceOutOfRange
  | b0 :: b1 :: rest =>
    let signExpo := b0 + b1 * 256
    let sign := signExpo / 2 ^ 15
    let exponent := signExpo % 2 ^ 15
    match uvarint rest with
    | none => .error .varintFailed
    | some (mantissa, _) =>
      .ok ((sign * 2 ^ 63) ||| (exponent * 2 ^ 52 % 2 ^ 64) ||| mantissa)

/-! ## Basic scalar codecs (draft file part 000, blob.go, timestamp.go) -/

def encodeNull : List Nat := [typeNull]

def encodeBool (b : Bool) : List Nat :=
  if b then [typeBoolTrue] else [typeBoolFalse]

def encodeByte (b : Nat) : List Nat := [typeByte, b]

def decodeByte (data : List Nat) : Except InnerErr Nat :=
  match data with
  | [] => .error .insufficientData
  | b :: _ => .ok b

/-- encodeString from draft file part 012: the standard format for every
string, including the empty one (uvarint length prefix with its own
one-byte length, then the raw bytes). -/
def encodeString (s : List Nat) : List Nat :=
  let lenInfo := encodeUint s.length
  typeString :: lenInfo.drop 1 ++ s

/-- decodeString: read the size varint from the first sizeLen bytes, then
return exactly size bytes after them. -/
def decodeString (data : List Nat) (sizeLen : Nat) : Except InnerErr (List Nat) :=
  if data.length < sizeLen then .error .sliceOutOfRange
  else
    match decodeUint (goSlice data 0 sizeLen) with
    | .error e => .error e
    | .ok size =>
      if data.length < sizeLen + size then .error .sliceOutOfRange
      else .ok (goSlice data sizeLen (sizeLen + size))

def encodeBlob (bs : List Nat) : List Nat :=
  let lenInfo := encodeUint bs.length
  typeBlob :: lenInfo.drop 1 ++ bs

def decodeBlob (data : List Nat) : Except InnerErr (List Nat) :=
  match data with
  | [] => .ok []
  | sizeLen :: _ =>
    if data.length < sizeLen + 1 then .error .insufficientData
    else
      match decodeUint (goSlice data 1 (1 + sizeLen)) with
      | .error _ => .error .varintFailed
      | .ok size =>
        if data.length < 1 + sizeLen + size then .error .insufficientData
        else .ok (goSlice data (1 + sizeLen) (1 + sizeLen + size))

def encodeTimestamp (ms : Int) : List Nat :=
  typeTimestamp :: leBytes64 (ms.emod (2 ^ 64)).toNat

def decodeTimestamp (data : List Nat) : Except InnerErr Int :=
  match data with
  | b0 :: b1 :: b2 :: b3 :: b4 :: b5 :: b6 :: b7 :: _ =>
    .ok (toInt64 (leUint64 b0 b1 b2 b3 b4 b5 b6 b7))
  | _ => .error .insufficientData

/-! ## UTF-8 validation (encoder.go isValidUTF8)

Go iterates the runes of the string and rejects it as soon as a rune
equals the replacement character 0xFFFD, which the range loop also
produces for every malformed sequence.  The acceptance ranges for the
second byte follow the utf8 package table (restricting surrogates and
overlong forms); continuation bytes are 0x80 to 0xBF. -/

/-- Lower acceptance bound for the second byte of a multi-byte rune. -/
def utf8SecondLo (b0 : Nat) : Nat :=
  if b0 = 224 then 160 else if b0 = 240 then 144 else 128

/-- Upper acceptance bound for the second byte of a multi-byte rune. -/
def utf8SecondHi (b0 : Nat) : Nat :=
  if b0 = 237 then 159 else if b0 = 244 then 143 else 191

/-- Rune value of an accepted three-byte sequence. -/
def rune3 (b0 b1 b2 : Nat) : Nat :=
  b0 % 16 * 4096 + b1 % 64 * 64 + b2 % 64

def isValidUTF8 : List Nat → Bool
  | [] => true
  | b0 :: rest =>
    if b0 < 128 then isValidUTF8 rest
    else if 194 ≤ b0 ∧ b0 ≤ 223 then
      match rest with
      | b1 :: rest2 =>
        if 128 ≤ b1 ∧ b1 ≤ 191 then isValidUTF8 rest2 else false
      | [] => false
    else if 224 ≤ b0 ∧ b0 ≤ 239 then
      match rest with
      | b1 :: b2 :: rest2 =>
        if utf8SecondLo b0 ≤ b1 ∧ b1 ≤ utf8SecondHi b0 ∧ 128 ≤ b2 ∧ b2 ≤ 191 then
          if rune3 b0 b1 b2 = 65533 then false else isValidUTF8 rest2
        else false
      | _ => false
    else if 240 ≤ b0 ∧ b0 ≤ 244 then
      match rest with
      | b1 :: b2 :: b3 :: rest2 =>
        if utf8SecondLo b0 ≤ b1 ∧ b1 ≤ utf8SecondHi b0 ∧ 128 ≤ b2 ∧ b2 ≤ 191 ∧
            128 ≤ b3 ∧ b3 ≤ 191 then isValidUTF8 rest2
        else false
      | _ => false
    else false

/-! ## Encoder-side value model

GoVal models the dynamic Go values fed to the encoder: the scalar types
of the type switch in Encoder.encode, the homogeneous slice types it
routes to the typed-list encoder, []any, map[string]any, and the typed
nil slice and nil map values that the reflection helper isNullValue
sends to the null encoder.  A float64 is carried as its bit pattern and
a time.Time as its UnixMilli value. -/

inductive GoVal where
  | goNil
  | goNilSlice
  | goNilMap
  | goBool (b : Bool)
  | goByte (b : Nat)
  | goInt (i : Int)
  | goUint (u : Nat)
  | goFloat (bits : Nat)
  | goString (s : List Nat)
  | goBytes (bs : List Nat)
  | goTime (ms : Int)
  | goStringList (xs : List (List Nat))
  | goIntList (xs : List Int)
  | goFloatList (xs : List Nat)
  | goBoolList (xs : List Bool)
  | goList (xs : List GoVal)
  | goMap (fields : List (List Nat × GoVal))
  deriving Repr

/-- isNullValue (draft file part 000): nil itself, and typed nil values
of pointer, interface, slice, map, channel and function kinds. -/
def isNullValue : GoVal → Bool
  | .goNil => true
  | .goNilSlice => true
  | .goNilMap => true
  | _ => false

/-! ## Encoder (encoder.go, typed_list.go, object.go) -/

structure Encoder where
  maxDepth : Int := 100
  strictMode : Bool := false
  compactLists : Bool := true
  validateStrings : Bool := true

def defaultEncoder : Encoder := {}

/-- Modelled from the spec: encodeList, the heterogeneous untyped list
encoder, is referenced from encoder.go and typed_list.go but its body is
absent from the sources.  Spec section 4.D gives the layout: kind 0x0A,
one length byte, the frame size as a uvarint, then the concatenated
already-encoded elements, each carrying its own kind byte.  The argument
is the list of encoded elements. -/
def encodeList (elems : List (List Nat)) : List Nat :=
  let body := elems.flatten
  typeUntypedList :: (encodeUint body.length).drop 1 ++ body

/-- Shared assembly of a typed list (encodeTypedList tail): the total
length covers the element-type byte, the count prefix and the element
bodies. -/
def typedListAssemble (elemCode : Nat) (count : Nat) (elements : List Nat) : List Nat :=
  let countTail := (encodeUint count).drop 1
  let totalLength := 1 + countTail.length + elements.length
  typeTypedList :: (encodeUint totalLength).drop 1 ++ elemCode :: countTail ++ elements

/-- encodeTypedList on a []string value: element bodies are the uvarint
length prefix (type byte stripped) followed by the raw bytes. -/
def encodeTypedStringList (xs : List (List Nat)) : List Nat :=
  if xs.length = 0 then encodeList [] else
  typedListAssemble typeString xs.length
    (xs.flatMap fun s => (encodeUint s.length).drop 1 ++ s)

/-- encodeTypedList on a []int64 or []int value: element bodies are
encodeInt with the type byte stripped. -/
def encodeTypedIntList (xs : List Int) : List Nat :=
  if xs.length = 0 then encodeList [] else
  typedListAssemble typeInt xs.length (xs.flatMap fun i => (encodeInt i).drop 1)

/-- encodeTypedList on a []float64 value: element bodies are encodeFloat
with the type byte stripped. -/
def encodeTypedFloatList (xs : List Nat) : List Nat :=
  if xs.length = 0 then encodeList [] else
  typedListAssemble typeFloat xs.length (xs.flatMap fun b => (encodeFloat b).drop 1)

/-- encodeTypedList on a []bool value: one octet per element, 1 for true
and 0 for false, under the TypeBoolTrue element code. -/
def encodeTypedBoolList (xs : List Bool) : List Nat :=
  if xs.length = 0 then encodeList [] else
  typedListAssemble typeBoolTrue xs.length (xs.map fun b => if b then 1 else 0)

/-- encodeFieldEntry tail: the entry-size uvarint with its length byte
(type byte stripped), the one-byte key length, the key bytes, then the
already-encoded value. -/
def mkFieldEntry (k : List Nat) (encodedValue : List Nat) : List Nat :=
  let entrySize := 1 + k.length + encodedValue.length
  (encodeUint entrySize).drop 1 ++ k.length :: k ++ encodedValue

/-- The object payload after the object type byte: the fields size
uvarint with its length byte (type byte stripped), then the field
entries.  This is exactly the slice decodeObject receives. -/
def objectBody (fieldsData : List Nat) : List Nat :=
  (encodeUint fieldsData.length).drop 1 ++ fieldsData

/-- encodeMap tail: the object type byte followed by the object payload. -/
def mkObjectBytes (fieldsData : List Nat) : List Nat :=
  typeObject :: objectBody fieldsData

mutual

/-- Encoder.encode with explicit depth (the per-call scratch field).
The guard mirrors the max-depth check at the head of Encoder.encode and
applies to every kind; the three nil-like constructors take the
isNullValue branch.  Scalar kinds not listed in the type switch reach
the same scalar encoders through encodeReflected and the package-level
encode. -/
def eencode (e : Encoder) (depth : Int) : GoVal → Except EncErr (List Nat)
  | .goNil =>
    if 0 < e.maxDepth ∧ e.maxDepth < depth then .error .maxDepthExceeded
    else .ok encodeNull
  | .goNilSlice =>
    if 0 < e.maxDepth ∧ e.maxDepth < depth then .error .maxDepthExceeded
    else .ok encodeNull
  | .goNilMap =>
    if 0 < e.maxDepth ∧ e.maxDepth < depth then .error .maxDepthExceeded
    else .ok encodeNull
  | .goString s =>
    if 0 < e.maxDepth ∧ e.maxDepth < depth then .error .maxDepthExceeded
    else if e.validateStrings ∧ ¬ isValidUTF8 s then .error .invalidUtf8String
    else .ok (encodeString s)
  | .goBool b =>
    if 0 < e.maxDepth ∧ e.maxDepth < depth then .error .maxDepthExceeded
    else .ok (encodeBool b)
  | .goByte b =>
    if 0 < e.maxDepth ∧ e.maxDepth < depth then .error .maxDepthExceeded
    else .ok (encodeByte b)
  | .goBytes bs =>
    if 0 < e.maxDepth ∧ e.maxDepth < depth then .error .maxDepthExceeded
    else .ok (encodeBlob bs)
  | .goTime ms =>
    if 0 < e.maxDepth ∧ e.maxDepth < depth then .error .maxDepthExceeded
    else .ok (encodeTimestamp ms)
  | .goStringList xs =>
    if 0 < e.maxDepth ∧ e.maxDepth < depth then .error .maxDepthExceeded
    else if e.compactLists then .ok (encodeTypedStringList xs)
    else .ok (encodeList (xs.map encodeString))
  | .goIntList xs =>
    if 0 < e.maxDepth ∧ e.maxDepth < depth then .error .maxDepthExceeded
    else if e.compactLists then .ok (encodeTypedIntList xs)
    else .ok (encodeList (xs.map encodeInt))
  | .goFloatList xs =>
    if 0 < e.maxDepth ∧ e.maxDepth < depth then .error .maxDepthExceeded
    else if e.compactLists then .ok (encodeTypedFloatList xs)
    else .ok (encodeList (xs.map encodeFloat))
  | .goBoolList xs =>
    if 0 < e.maxDepth ∧ e.maxDepth < depth then .error .maxDepthExceeded
    else if e.compactLists then .ok (encodeTypedBoolList xs)
    else .ok (encodeList (xs.map encodeBool))
  | .goInt i =>
    if 0 < e.maxDepth ∧ e.maxDepth < depth then .error .maxDepthExceeded
    else .ok (encodeInt i)
  | .goUint u =>
    if 0 < e.maxDepth ∧ e.maxDepth < depth then .error .maxDepthExceeded
    else .ok (encodeUint u)
  | .goFloat bits =>
    if 0 < e.maxDepth ∧ e.maxDepth < depth then .error .maxDepthExceeded
    else .ok (encodeFloat bits)
  | .goList xs =>
    if 0 < e.maxDepth ∧ e.maxDepth < depth then .error .maxDepthExceeded
    else
      match eencodeListElems e (depth + 1) xs with
      | .error err => .error err
      | .ok elems => .ok (encodeList elems)
  | .goMap fields =>
    if 0 < e.maxDepth ∧ e.maxDepth < depth then .error .maxDepthExceeded
    else if 0 < e.maxDepth ∧ e.maxDepth ≤ depth then .error .maxDepthExceeded
    else
      match eencodeFields e (depth + 1) fields with
      | .error err => .error err
      | .ok fieldsData => .ok (mkObjectBytes fieldsData)
termination_by v => sizeOf v

/-- The field-entry loop of encodeMapWithDepth, in iteration order of the
association list. -/
def eencodeFields (e : Encoder) (depth : Int) :
    List (List Nat × GoVal) → Except EncErr (List Nat)
  | [] => .ok []
  | (k, v) :: rest =>
    match eencode e depth v with
    | .error err => .error err
    | .ok encodedValue =>
      if 255 < k.length then .error .keyTooLong
      else
        match eencodeFields e depth rest with
        | .error err => .error err
        | .ok restData => .ok (mkFieldEntry k encodedValue ++ restData)
termination_by fields => sizeOf fields

/-- Element encoding for a heterogeneous []any list (dispatcher recursion
of the spec-modelled encodeList). -/
def eencodeListElems (e : Encoder) (depth : Int) :
    List GoVal → Except EncErr (List (List Nat))
  | [] => .ok []
  | v :: rest =>
    match eencode e depth v with
    | .error err => .error err
    | .ok ev =>
      match eencodeListElems e depth rest with
      | .error err => .error err
      | .ok evs => .ok (ev :: evs)
termination_by xs => sizeOf xs

end

/-- Encoder.Encode: reset depth, encode, prepend the version byte. -/
def Encoder.Encode (e : Encoder) (v : GoVal) : Except EncErr (List Nat) :=
  match eencode e 0 v with
  | .error err => .error err
  | .ok res => .ok (versionByte :: res)

/-! ## Decoder-side value model

DVal models the dynamic Go values the decoder returns; the typed-list
decoder returns typed slices, an object becomes a Go map modelled as an
association list maintained with in-place replacement, and an unknown
kind in lenient mode becomes the opaque UnknownType carrier. -/

inductive DVal where
  | dNull
  | dBool (b : Bool)
  | dByte (b : Nat)
  | dInt (i : Int)
  | dUint (u : Nat)
  | dFloat (bits : Nat)
  | dString (s : List Nat)
  | dBlob (bs : List Nat)
  | dTimestamp (ms : Int)
  | dStringList (xs : List (List Nat))
  | dIntList (xs : List Int)
  | dUintList (xs : List Nat)
  | dFloatList (xs : List Nat)
  | dBoolList (xs : List Bool)
  | dByteList (bs : List Nat)
  | dList (xs : List DVal)
  | dObj (m : List (List Nat × DVal))
  | dUnknown (t : Nat) (raw : List Nat)

/-- Go map assignment m[k] = v: replace the binding in place when the
key is present, append it otherwise. -/
def mapUpsert (m : List (List Nat × DVal)) (k : List Nat) (v : DVal) :
    List (List Nat × DVal) :=
  match m with
  | [] => [(k, v)]
  | (k0, v0) :: rest =>
    if k0 = k then (k, v) :: rest else (k0, v0) :: mapUpsert rest k v

/-- Go map read m[k]. -/
def mapLookup (m : List (List Nat × DVal)) (k : List Nat) : Option DVal :=
  match m with
  | [] => none
  | (k0, v0) :: rest => if k0 = k then some v0 else mapLookup rest k

/-! ## Element sizer (object.go getElementSize) -/

def getElementSize (data : List Nat) : Except InnerErr Nat :=
  match data with
  | [] => .error .insufficientData
  | t :: rest =>
    if t = typeNull then .ok 1
    else if t = typeBoolTrue ∨ t = typeBoolFalse then .ok 1
    else if t = typeByte then .ok 2
    else if t = typeString ∨ t = typeBlob ∨ t = typeUntypedList ∨
        t = typeTypedList ∨ t = typeObject then
      match rest with
      | [] => .error .insufficientData
      | sizeLen :: _ =>
        if data.length < 2 + sizeLen then .error .insufficientData
        else
          match decodeUint (goSlice data 2 (2 + sizeLen)) with
          | .error err => .error err
          | .ok sz => .ok (2 + sizeLen + sz)
    else if t = typeInt ∨ t = typeUint ∨ t = typeFloat then
      match rest with
      | [] => .error .insufficientData
      | sizeLen :: _ => .ok (2 + sizeLen)
    else if t = typeTimestamp then .ok 9
    else .error (.unsupportedType t)

/-! ## Typed list decoder (typed_list.go decodeTypedList) -/

/-- String element loop: one-byte length-varint size, the length varint,
then the raw bytes, repeated count times from offset pos. -/
def decodeTypedStrings (elementsData : List Nat) (pos : Nat) :
    Nat → Except InnerErr (List (List Nat))
  | 0 => .ok []
  | count + 1 =>
    if elementsData.length ≤ pos then .error .insufficientData
    else
      let strLenSize := elementsData.getD pos 0
      if elementsData.length < pos + 1 + strLenSize then .error .insufficientData
      else
        match decodeUint (goSlice elementsData (pos + 1) (pos + 1 + strLenSize)) with
        | .error err => .error err
        | .ok strLen =>
          let pos2 := pos + 1 + strLenSize
          if elementsData.length < pos2 + strLen then .error .insufficientData
          else
            match decodeTypedStrings elementsData (pos2 + strLen) count with
            | .error err => .error err
            | .ok rest => .ok (goSlice elementsData pos2 (pos2 + strLen) :: rest)

/-- Int element loop: one-byte varint size then the varint body. -/
def decodeTypedInts (elementsData : List Nat) (pos : Nat) :
    Nat → Except InnerErr (List Int)
  | 0 => .ok []
  | count + 1 =>
    if elementsData.length ≤ pos then .error .insufficientData
    else
      let intLenSize := elementsData.getD pos 0
      if elementsData.length < pos + 1 + intLenSize then .error .insufficientData
      else
        match decodeInt (goSlice elementsData (pos + 1) (pos + 1 + intLenSize)) with
        | .error err => .error err
        | .ok v =>
          match decodeTypedInts elementsData (pos + 1 + intLenSize) count with
          | .error err => .error err
          | .ok rest => .ok (v :: rest)

/-- Uint element loop. -/
def decodeTypedUints (elementsData : List Nat) (pos : Nat) :
    Nat → Except InnerErr (List Nat)
  | 0 => .ok []
  | count + 1 =>
    if elementsData.length ≤ pos then .error .insufficientData
    else
      let uintLenSize := elementsData.getD pos 0
      if elementsData.length < pos + 1 + uintLenSize then .error .insufficientData
      else
        match decodeUint (goSlice elementsData (pos + 1) (pos + 1 + uintLenSize)) with
        | .error err => .error err
        | .ok v =>
          match decodeTypedUints elementsData (pos + 1 + uintLenSize) count with
          | .error err => .error err
          | .ok rest => .ok (v :: rest)

/-- Float element loop. -/
def decodeTypedFloats (elementsData : List Nat) (pos : Nat) :
    Nat → Except InnerErr (List Nat)
  | 0 => .ok []
  | count + 1 =>
    if elementsData.length ≤ pos then .error .insufficientData
    else
      let floatLenSize := elementsData.getD pos 0
      if elementsData.length < pos + 1 + floatLenSize then .error .insufficientData
      else
        match decodeFloat (goSlice elementsData (pos + 1) (pos + 1 + floatLenSize)) with
        | .error err => .error err
        | .ok v =>
          match decodeTypedFloats elementsData (pos + 1 + floatLenSize) count with
          | .error err => .error err
          | .ok rest => .ok (v :: rest)

def decodeTypedList (data : List Nat) : Except InnerErr DVal :=
  if data.length < 2 then .error .insufficientData
  else
    match data with
    | [] => .error .insufficientData
    | sizeLen :: _ =>
      if data.length < sizeLen + 1 then .error .insufficientData
      else
        match decodeUint (goSlice data 1 (1 + sizeLen)) with
        | .error err => .error err
        | .ok totalSize =>
          if data.length < 1 + sizeLen + totalSize then .error .insufficientData
          else
            match goSlice data (1 + sizeLen) (1 + sizeLen + totalSize) with
            | [] => .error .insufficientData
            | elementType :: listRest =>
              match listRest with
              | [] => .error .insufficientData
              | countLen :: _ =>
                if listRest.length < countLen + 1 then .error .insufficientData
                else
                  match decodeUint (goSlice listRest 1 (1 + countLen)) with
                  | .error err => .error err
                  | .ok count =>
                    let elementsData := listRest.drop (1 + countLen)
                    if elementType = typeString then
                      (decodeTypedStrings elementsData 0 count).map .dStringList
                    else if elementType = typeByte then
                      if elementsData.length ≠ count then .error .insufficientData
                      else .ok (.dByteList elementsData)
                    else if elementType = typeInt then
                      (decodeTypedInts elementsData 0 count).map .dIntList
                    else if elementType = typeUint then
                      (decodeTypedUints elementsData 0 count).map .dUintList
                    else if elementType = typeFloat then
                      (decodeTypedFloats elementsData 0 count).map .dFloatList
                    else if elementType = typeBoolTrue then
                      if elementsData.length ≠ count then .error .insufficientData
                      else .ok (.dBoolList (elementsData.map fun b => b = 1))
                    else .error (.unsupportedType elementType)

/-! ## Recursive value, object and array decoders
(object.go decodeValue, decodeObject, decodeFieldEntry, decodeArrayValue;
decoder.go decodeObjectSelective, decodeValueSelective)

The mutual recursion is carried by an explicit fuel argument decremented
on every nested call.  Each nested call works on a strictly shorter
slice, so fuel equal to the length of the buffer plus one never runs
out; the public wrappers below pass exactly that. -/

mutual

/-- object.go decodeValue: decode one value without a version byte.
The numeric and string cases read a length byte and slice without a
preceding bounds check in Go; a slice past the end is the modelled
panic. -/
def decodeValueF : Nat → List Nat → Except InnerErr DVal
  | 0, _ => .error .fuelOut
  | fuel + 1, data =>
    match data with
    | [] => .ok .dNull
    | t :: rest =>
      if t = typeNull then .ok .dNull
      else if t = typeBoolTrue then .ok (.dBool true)
      else if t = typeBoolFalse then .ok (.dBool false)
      else if t = typeString then
        match rest with
        | [] => .error .sliceOutOfRange
        | sizeLen :: _ => (decodeString (data.drop 2) sizeLen).map .dString
      else if t = typeByte then (decodeByte rest).map .dByte
      else if t = typeInt then
        match rest with
        | [] => .error .sliceOutOfRange
        | sizeLen :: _ =>
          if data.length < 2 + sizeLen then .error .sliceOutOfRange
          else (decodeInt (goSlice data 2 (2 + sizeLen))).map .dInt
      else if t = typeUint then
        match rest with
        | [] => .error .sliceOutOfRange
        | sizeLen :: _ =>
          if data.length < 2 + sizeLen then .error .sliceOutOfRange
          else (decodeUint (goSlice data 2 (2 + sizeLen))).map .dUint
      else if t = typeFloat then
        match rest with
        | [] => .error .sliceOutOfRange
        | sizeLen :: _ =>
          if data.length < 2 + sizeLen then .error .sliceOutOfRange
          else (decodeFloat (goSlice data 2 (2 + sizeLen))).map .dFloat
      else if t = typeBlob then (decodeBlob rest).map .dBlob
      else if t = typeTimestamp then (decodeTimestamp rest).map .dTimestamp
      else if t = typeUntypedList then decodeArrayValueF fuel rest
      else if t = typeTypedList then decodeTypedList rest
      else if t = typeObject then (decodeObjectF fuel rest).map .dObj
      else .error (.unsupportedType t)

/-- object.go decodeObject: read the fields size, carve the fields
region, then fold the entries into a map. -/
def decodeObjectF : Nat → List Nat → Except InnerErr (List (List Nat × DVal))
  | 0, _ => .error .fuelOut
  | fuel + 1, data =>
    match data with
    | [] => .ok []
    | sizeLen :: _ =>
      if data.length < sizeLen + 1 then .error .insufficientData
      else
        match decodeUint (goSlice data 1 (1 + sizeLen)) with
        | .error _ => .error .varintFailed
        | .ok fieldsSize =>
          if data.length < 1 + sizeLen + fieldsSize then .error .insufficientData
          else
            decodeObjectLoopF fuel
              (goSlice data (1 + sizeLen) (1 + sizeLen + fieldsSize)) []

/-- The entry loop of decodeObject over the remaining fields region. -/
def decodeObjectLoopF : Nat → List Nat → List (List Nat × DVal) →
    Except InnerErr (List (List Nat × DVal))
  | 0, _, _ => .error .fuelOut
  | fuel + 1, fieldsRest, acc =>
    if fieldsRest.length = 0 then .ok acc
    else
      match decodeFieldEntryF fuel fieldsRest with
      | .error err => .error err
      | .ok (k, v, n) => decodeObjectLoopF fuel (fieldsRest.drop n) (mapUpsert acc k v)

/-- object.go decodeFieldEntry: entry size, exact entry region, key
length, key, then the value; returns the bytes consumed. -/
def decodeFieldEntryF : Nat → List Nat →
    Except InnerErr (List Nat × DVal × Nat)
  | 0, _ => .error .fuelOut
  | fuel + 1, data =>
    match data with
    | [] => .error .insufficientData
    | entrySizeLen :: _ =>
      if data.length < entrySizeLen + 1 then .error .insufficientData
      else
        match decodeUint (goSlice data 1 (1 + entrySizeLen)) with
        | .error err => .error err
        | .ok entrySize =>
          let entryEnd := 1 + entrySizeLen + entrySize
          if data.length < entryEnd then .error .insufficientData
          else
            let entryData := goSlice data (1 + entrySizeLen) entryEnd
            match entryData with
            | [] => .error .insufficientData
            | keyLen :: _ =>
              if entryData.length < 1 + keyLen then .error .insufficientData
              else
                match decodeValueF fuel (entryData.drop (1 + keyLen)) with
                | .error err => .error err
                | .ok v => .ok (goSlice entryData 1 (1 + keyLen), v, entryEnd)

/-- object.go decodeArrayValue: carve the frame, then decode elements,
advancing by getElementSize after each. -/
def decodeArrayValueF : Nat → List Nat → Except InnerErr DVal
  | 0, _ => .error .fuelOut
  | fuel + 1, data =>
    match data with
    | [] => .ok (.dList [])
    | sizeLen :: _ =>
      if data.length < sizeLen + 1 then .error .insufficientData
      else
        match decodeUint (goSlice data 1 (1 + sizeLen)) with
        | .error err => .error err
        | .ok arraySize =>
          if data.length < 1 + sizeLen + arraySize then .error .insufficientData
          else
            (decodeArrayLoopF fuel
              (goSlice data (1 + sizeLen) (1 + sizeLen + arraySize))).map .dList

/-- The element loop of decodeArrayValue. -/
def decodeArrayLoopF : Nat → List Nat → Except InnerErr (List DVal)
  | 0, _ => .error .fuelOut
  | fuel + 1, arrayRest =>
    if arrayRest.length = 0 then .ok []
    else
      match decodeValueF fuel arrayRest with
      | .error err => .error err
      | .ok elem =>
        match getElementSize arrayRest with
        | .error err => .error err
        | .ok n =>
          match decodeArrayLoopF fuel (arrayRest.drop n) with
          | .error err => .error err
          | .ok tailElems => .ok (elem :: tailElems)

/-- decoder.go decodeObjectSelective: like decodeObject, but the entry
loop skips entries whose key is not in the wanted list and stops as soon
as the result holds as many fields as the wanted list. -/
def decodeObjectSelectiveF (wanted : List (List Nat)) :
    Nat → List Nat → Except InnerErr (List (List Nat × DVal))
  | 0, _ => .error .fuelOut
  | fuel + 1, data =>
    match data with
    | [] => .ok []
    | sizeLen :: _ =>
      if data.length < sizeLen + 1 then .error .insufficientData
      else
        match decodeUint (goSlice data 1 (1 + sizeLen)) with
        | .error _ => .error .varintFailed
        | .ok fieldsSize =>
          if data.length < 1 + sizeLen + fieldsSize then .error .insufficientData
          else
            decodeSelLoopF wanted fuel
              (goSlice data (1 + sizeLen) (1 + sizeLen + fieldsSize)) []

/-- The selective entry loop. -/
def decodeSelLoopF (wanted : List (List Nat)) : Nat → List Nat →
    List (List Nat × DVal) → Except InnerErr (List (List Nat × DVal))
  | 0, _, _ => .error .fuelOut
  | fuel + 1, fieldsRest, acc =>
    if fieldsRest.length ≠ 0 ∧ acc.length < wanted.length then
      match fieldsRest with
      | [] => .ok acc
      | entrySizeLen :: _ =>
        if fieldsRest.length < entrySizeLen + 1 then .error .insufficientData
        else
          match decodeUint (goSlice fieldsRest 1 (1 + entrySizeLen)) with
          | .error _ => .error .varintFailed
          | .ok entrySize =>
            let entryEnd := 1 + entrySizeLen + entrySize
            if fieldsRest.length < entryEnd then .error .insufficientData
            else
              let entryData := goSlice fieldsRest (1 + entrySizeLen) entryEnd
              match entryData with
              | [] => .error .insufficientData
              | keyLen :: _ =>
                if entryData.length < 1 + keyLen then .error .insufficientData
                else
                  let key := goSlice entryData 1 (1 + keyLen)
                  if wanted.contains key then
                    match decodeValueSelectiveF wanted fuel
                        (entryData.drop (1 + keyLen)) with
                    | .error err => .error err
                    | .ok v =>
                      decodeSelLoopF wanted fuel (fieldsRest.drop entryEnd)
                        (mapUpsert acc key v)
                  else decodeSelLoopF wanted fuel (fieldsRest.drop entryEnd) acc
    else .ok acc

/-- decoder.go decodeValueSelective: the value decoder used under
selective field decoding; objects recurse selectively with the same
wanted list, and the scalar cases carry explicit bounds checks. -/
def decodeValueSelectiveF (wanted : List (List Nat)) :
    Nat → List Nat → Except InnerErr DVal
  | 0, _ => .error .fuelOut
  | fuel + 1, data =>
    match data with
    | [] => .ok .dNull
    | t :: rest =>
      if t = typeNull then .ok .dNull
      else if t = typeBoolTrue then .ok (.dBool true)
      else if t = typeBoolFalse then .ok (.dBool false)
      else if t = typeString then
        match rest with
        | [] => .error .insufficientData
        | sizeLen :: _ =>
          if data.length < 2 + sizeLen then .error .insufficientData
          else (decodeString (data.drop 2) sizeLen).map .dString
      else if t = typeByte then
        match rest with
        | [] => .error .insufficientData
        | b :: _ => .ok (.dByte b)
      else if t = typeInt then
        match rest with
        | [] => .error .insufficientData
        | sizeLen :: _ =>
          if data.length < 2 + sizeLen then .error .insufficientData
          else (decodeInt (goSlice data 2 (2 + sizeLen))).map .dInt
      else if t = typeUint then
        match rest with
        | [] => .error .insufficientData
        | sizeLen :: _ =>
          if data.length < 2 + sizeLen then .error .insufficientData
          else (decodeUint (goSlice data 2 (2 + sizeLen))).map .dUint
      else if t = typeFloat then
        match rest with
        | [] => .error .insufficientData
        | sizeLen :: _ =>
          if data.length < 2 + sizeLen then .error .insufficientData
          else (decodeFloat (goSlice data 2 (2 + sizeLen))).map .dFloat
      else if t = typeBlob then (decodeBlob rest).map .dBlob
      else if t = typeTimestamp then (decodeTimestamp rest).map .dTimestamp
      else if t = typeUntypedList then decodeArrayValueF fuel rest
      else if t = typeTypedList then decodeTypedList rest
      else if t = typeObject then
        (decodeObjectSelectiveF wanted fuel rest).map .dObj
      else .error (.unsupportedType t)

end

/-! Fuel-supplying wrappers carrying the source names. -/

def decodeValue (data : List Nat) : Except InnerErr DVal :=
  decodeValueF (data.length + 1) data

def decodeObject (data : List Nat) : Except InnerErr (List (List Nat × DVal)) :=
  decodeObjectF (data.length + 1) data

def decodeFieldEntry (data : List Nat) : Except InnerErr (List Nat × DVal × Nat) :=
  decodeFieldEntryF (data.length + 1) data

def decodeArrayValue (data : List Nat) : Except InnerErr DVal :=
  decodeArrayValueF (data.length + 1) data

def decodeObjectSelective (wanted : List (List Nat)) (data : List Nat) :
    Except InnerErr (List (List Nat × DVal)) :=
  decodeObjectSelectiveF wanted (data.length + 1) data

/-! ## Configurable decoder (decoder.go) -/

structure Decoder where
  maxDepth : Int := 100
  strictMode : Bool := false
  allowUnknownTypes : Bool := false
  maxObjectSize : Int := 10485760
  validateUTF8 : Bool := true
  selectiveFields : List (List Nat) := []

def defaultDecoder : Decoder := {}

/-- Decoder.decode: the internal dispatcher on data without a version
byte; depth and bytesProcessed are the per-call scratch fields, both
zero at entry from Decode. -/
def Decoder.decode (d : Decoder) (depth bytesProcessed : Int)
    (data : List Nat) : Except InnerErr DVal :=
  match data with
  | [] => .error .insufficientData
  | t :: rest =>
    if 0 < d.maxDepth ∧ d.maxDepth < depth then .error .depthExceeded
    else if 0 < d.maxObjectSize ∧ d.maxObjectSize < bytesProcessed then
      .error .sizeExceeded
    else if t = typeNull then .ok .dNull
    else if t = typeBoolTrue then .ok (.dBool true)
    else if t = typeBoolFalse then .ok (.dBool false)
    else if t = typeString then
      match rest with
      | [] => .error .insufficientData
      | sizeLen :: _ =>
        if data.length < 2 + sizeLen then .error .insufficientData
        else
          match decodeString (data.drop 2) sizeLen with
          | .error err => .error err
          | .ok s =>
            if d.validateUTF8 ∧ ¬ isValidUTF8 s then .error .invalidUtf8
            else .ok (.dString s)
    else if t = typeByte then (decodeByte rest).map .dByte
    else if t = typeInt then
      match rest with
      | [] => .error .insufficientData
      | sizeLen :: _ =>
        if data.length < 2 + sizeLen then .error .insufficientData
        else (decodeInt (goSlice data 2 (2 + sizeLen))).map .dInt
    else if t = typeUint then
      match rest with
      | [] => .error .insufficientData
      | sizeLen :: _ =>
        if data.length < 2 + sizeLen then .error .insufficientData
        else (decodeUint (goSlice data 2 (2 + sizeLen))).map .dUint
    else if t = typeFloat then
      match rest with
      | [] => .error .insufficientData
      | sizeLen :: _ =>
        if data.length < 2 + sizeLen then .error .insufficientData
        else (decodeFloat (goSlice data 2 (2 + sizeLen))).map .dFloat
    else if t = typeBlob then
      match decodeBlob rest with
      | .error err => .error err
      | .ok blob =>
        if 0 < d.maxObjectSize ∧ d.maxObjectSize < (blob.length : Int) then
          .error .blobTooLarge
        else .ok (.dBlob blob)
    else if t = typeTimestamp then (decodeTimestamp rest).map .dTimestamp
    else if t = typeUntypedList then .error .notImplemented
    else if t = typeTypedList then decodeTypedList rest
    else if t = typeObject then
      if 0 < d.selectiveFields.length then
        (decodeObjectSelective d.selectiveFields rest).map .dObj
      else
        match decodeObject rest with
        | .error err => .error err
        | .ok m =>
          if d.strictMode ∧ d.validateUTF8 ∧ m.any (fun kv => ¬ isValidUTF8 kv.1) then
            .error .invalidUtf8
          else .ok (.dObj m)
    else if d.allowUnknownTypes then .ok (.dUnknown t data)
    else .error (.unsupportedType t)

/-- Decoder.Decode: require two bytes, check the version byte (strict
mode only), then hand the rest to the internal dispatcher. -/
def Decoder.Decode (d : Decoder) (data : List Nat) : Except TopErr DVal :=
  if data.length < 2 then .error .insufficientTop
  else
    let version := data.getD 0 0
    if version ≠ versionByte ∧ d.strictMode then .error (.unsupportedVersion version)
    else (d.decode 0 0 (data.drop 1)).mapError .inner

/-! ## Statement-support definitions -/

/-- A raw field-entry stream: each entry is a key with an encoded value
body; the concatenated wire entries feed objectBody. -/
def entryStream (entries : List (List Nat × List Nat)) : List Nat :=
  (entries.map fun kv => mkFieldEntry kv.1 kv.2).flatten

/-- The value of the last entry carrying a given key, in stream order. -/
def lastVal (entries : List (List Nat × List Nat × DVal)) (k : List Nat) :
    Option DVal :=
  match entries with
  | [] => none
  | (k0, _, v0) :: rest =>
    match lastVal rest k with
    | some v => some v
    | none => if k0 = k then some v0 else none

/-! ## Varint lemmas -/

theorem putUvarint_length_pos (u : Nat) : 0 < (putUvarint u).length := by
  rw [putUvarint]
  rw [show (10 : Nat) = 9 + 1 from rfl]
  rw [putUvarintGo]
  split
  · simp
  · simp

/-- Reading back a uvarint written by putUvarintGo from position i of
the stream, with any trailing bytes: the guards of Uvarint never fire
while the remaining value fits in the remaining bit budget. -/
theorem uvarintGo_putUvarintGo : ∀ (fuel u : Nat) (rest : List Nat) (i s x : Nat),
    i ≤ 9 → 10 ≤ i + fuel → s = 7 * i → u < 2 ^ (64 - 7 * i) →
    uvarintGo (putUvarintGo fuel u ++ rest) i s x =
      some (x + u * 2 ^ s, i + (putUvarintGo fuel u).length) := by
  intro fuel
  induction fuel with
  | zero =>
    intro u rest i s x hi hf hs hu
    omega
  | succ f ih =>
    intro u rest i s x hi hf hs hu
    rw [putUvarintGo]
    by_cases h : u < 128
    · rw [if_pos h]
      simp only [List.cons_append, List.nil_append, uvarintGo, List.length_singleton]
      rw [if_neg (by omega)]
      rw [if_pos h]
      rw [if_neg ?nine]
      case nine =>
        rintro ⟨h9, hb⟩
        subst h9
        simp only [show 64 - 7 * 9 = 1 by norm_num, pow_one] at hu
        omega
    · rw [if_neg h]
      simp only [List.cons_append, uvarintGo]
      rw [if_neg (by omega)]
      rw [if_neg (by omega)]
      have hi8 : i ≤ 8 := by
        rcases Nat.lt_or_ge i 9 with h9 | h9
        · omega
        · exfalso
          have : i = 9 := by omega
          subst this
          simp only [show 64 - 7 * 9 = 1 by norm_num, pow_one] at hu
          omega
      have hdiv : u / 128 < 2 ^ (64 - 7 * (i + 1)) := by
        have hsub : 64 - 7 * i = (64 - 7 * (i + 1)) + 7 := by omega
        rw [Nat.div_lt_iff_lt_mul (by norm_num)]
        calc u < 2 ^ (64 - 7 * i) := hu
        _ = 2 ^ (64 - 7 * (i + 1)) * 128 := by
            rw [hsub, pow_add]
            norm_num
      have := ih (u / 128) rest
        (i + 1) (s + 7) (x + (u % 128 + 128) % 128 * 2 ^ s) (by omega) (by omega)
        (by omega) hdiv
      simp only [List.append_eq]
      rw [this]
      congr 2
      · have hmod : (u % 128 + 128) % 128 = u % 128 := by omega
        rw [hmod]
        have hsplit : u = u % 128 + 128 * (u / 128) := (Nat.mod_add_div u 128).symm
        calc x + u % 128 * 2 ^ s + u / 128 * 2 ^ (s + 7)
            = x + (u % 128 + 128 * (u / 128)) * 2 ^ s := by ring
        _ = x + u * 2 ^ s := by rw [← hsplit]
      · simp only [List.length_cons]
        omega

theorem uvarint_putUvarint (u : Nat) (rest : List Nat) (hu : u < 2 ^ 64) :
    uvarint (putUvarint u ++ rest) = some (u, (putUvarint u).length) := by
  have := uvarintGo_putUvarintGo 10 u rest 0 0 0 (by omega) (by omega) (by omega)
    (by simpa using hu)
  simpa [uvarint, putUvarint] using this

theorem decodeUint_putUvarint (u : Nat) (rest : List Nat) (hu : u < 2 ^ 64) :
    decodeUint (putUvarint u ++ rest) = .ok u := by
  simp [decodeUint, uvarint_putUvarint u rest hu]

theorem decodeUint_putUvarint_nil (u : Nat) (hu : u < 2 ^ 64) :
    decodeUint (putUvarint u) = .ok u := by
  have := decodeUint_putUvarint u [] hu
  simpa using this

theorem zigzag_lt (i : Int) (hlo : -(2 ^ 63) ≤ i) (hhi : i < 2 ^ 63) :
    zigzag i < 2 ^ 64 := by
  unfold zigzag
  split
  · rename_i hpos
    have : (2 * i).toNat < 2 ^ 64 := by omega
    exact this
  · rename_i hneg
    have : (-2 * i - 1).toNat < 2 ^ 64 := by omega
    exact this

theorem unzigzag_zigzag (i : Int) : unzigzag (zigzag i) = i := by
  unfold unzigzag zigzag
  split
  · rename_i hpos
    have h2 : (2 * i).toNat = 2 * i.toNat := by omega
    rw [h2]
    simp only [Nat.mul_mod_right, if_true]
    rw [Nat.mul_div_cancel_left _ (by norm_num)]
    omega
  · rename_i hneg
    have hlt : i < 0 := by omega
    have h2 : (-2 * i - 1).toNat = 2 * (-i - 1).toNat + 1 := by omega
    rw [h2]
    rw [if_neg (by omega)]
    rw [Nat.mul_add_div (by norm_num), Nat.div_eq_of_lt (by norm_num)]
    omega

theorem decodeInt_putVarint (i : Int) (rest : List Nat)
    (hlo : -(2 ^ 63) ≤ i) (hhi : i < 2 ^ 63) :
    decodeInt (putVarint i ++ rest) = .ok i := by
  simp only [decodeInt, putVarint,
    uvarint_putUvarint (zigzag i) rest (zigzag_lt i hlo hhi)]
  rw [unzigzag_zigzag]

theorem decodeInt_putVarint_nil (i : Int)
    (hlo : -(2 ^ 63) ≤ i) (hhi : i < 2 ^ 63) :
    decodeInt (putVarint i) = .ok i := by
  have := decodeInt_putVarint i [] hlo hhi
  simpa using this

/-! ## Slice lemmas -/

theorem goSlice_inner (p w r : List Nat) :
    goSlice (p ++ w ++ r) p.length (p.length + w.length) = w := by
  unfold goSlice
  rw [List.take_append_of_le_length (by simp)]
  rw [List.take_of_length_le (by simp)]
  simp

theorem goSlice_cons_inner (a : Nat) (w r : List Nat) :
    goSlice (a :: (w ++ r)) 1 (1 + w.length) = w := by
  have := goSlice_inner [a] w r
  simpa using this

theorem goSlice_suffix (p w : List Nat) :
    goSlice (p ++ w) p.length (p.length + w.length) = w := by
  have := goSlice_inner p w []
  simpa using this

theorem goSlice_cons_after (a : Nat) (w t : List Nat) (T : Nat) (hT : T = t.length) :
    goSlice (a :: (w ++ t)) (1 + w.length) (1 + w.length + T) = t := by
  subst hT
  unfold goSlice
  rw [List.take_of_length_le (by simp; omega)]
  rw [show 1 + w.length = w.length + 1 by omega]
  rw [List.drop_succ_cons]
  simp

theorem drop_cons_after (a : Nat) (w t : List Nat) :
    (a :: (w ++ t)).drop (1 + w.length) = t := by
  rw [show 1 + w.length = w.length + 1 by omega]
  rw [List.drop_succ_cons]
  simp

theorem putUvarintGo_length_le (fuel : Nat) : ∀ u, (putUvarintGo fuel u).length ≤ fuel := by
  induction fuel with
  | zero => intro u; simp [putUvarintGo]
  | succ f ih =>
    intro u
    rw [putUvarintGo]
    split
    · simp
    · simp only [List.length_cons]
      exact Nat.succ_le_succ (ih _)

theorem putUvarint_length_le (u : Nat) : (putUvarint u).length ≤ 10 :=
  putUvarintGo_length_le 10 u

theorem drop_prefix_append (p w : List Nat) : (p ++ w).drop p.length = w := by
  simp

/-! ## Map and last-value lemmas -/

theorem mapLookup_upsert (m : List (List Nat × DVal)) (k0 k : List Nat) (v0 : DVal) :
    mapLookup (mapUpsert m k0 v0) k =
      if k0 = k then some v0 else mapLookup m k := by
  induction m with
  | nil => by_cases h : k0 = k <;> simp [mapUpsert, mapLookup, h]
  | cons hd tl ih =>
    obtain ⟨hk, hv⟩ := hd
    by_cases h : hk = k0
    · subst h
      by_cases h2 : hk = k
      · subst h2
        simp [mapUpsert, mapLookup]
      · simp [mapUpsert, mapLookup, h2]
    · by_cases h2 : hk = k
      · subst h2
        have hne : ¬ k0 = hk := fun he => h he.symm
        simp [mapUpsert, mapLookup, h, hne]
      · simp [mapUpsert, mapLookup, h, h2, ih]

theorem mapLookup_eq_none_iff (m : List (List Nat × DVal)) (k : List Nat) :
    mapLookup m k = none ↔ k ∉ m.map Prod.fst := by
  induction m with
  | nil => simp [mapLookup]
  | cons hd tl ih =>
    obtain ⟨hk, hv⟩ := hd
    simp only [mapLookup, List.map_cons, List.mem_cons]
    by_cases h : hk = k
    · subst h
      simp
    · rw [if_neg h, ih]
      constructor
      · intro hn hor
        rcases hor with he | hm
        · exact h he.symm
        · exact hn hm
      · intro hn hm
        exact hn (Or.inr hm)

theorem mapUpsert_not_mem (m : List (List Nat × DVal)) (k : List Nat) (v : DVal)
    (h : k ∉ m.map Prod.fst) : mapUpsert m k v = m ++ [(k, v)] := by
  induction m with
  | nil => simp [mapUpsert]
  | cons hd tl ih =>
    obtain ⟨hk, hv⟩ := hd
    simp only [List.map_cons, List.mem_cons] at h
    push_neg at h
    have hne : ¬ hk = k := fun he => h.1 he.symm
    simp only [mapUpsert, if_neg hne, List.cons_append]
    rw [ih h.2]

theorem lastVal_eq_none (entries : List (List Nat × List Nat × DVal)) (k : List Nat)
    (h : k ∉ entries.map fun e => e.1) : lastVal entries k = none := by
  induction entries with
  | nil => rfl
  | cons hd tl ih =>
    obtain ⟨hk, hb, hv⟩ := hd
    simp only [List.map_cons, List.mem_cons] at h
    push_neg at h
    simp only [lastVal]
    rw [ih h.2]
    have hne : ¬ hk = k := fun he => h.1 he.symm
    simp [hne]

/-! ## Claim theorems -/

/-- C1: the claim states that decoding the bytes produced by encoding any
supported value with the default configurable encoder and decoder returns
the value up to canonical numeric widening.  This holds for the sampled
null, bool, byte, string, blob, timestamp, signed and unsigned integer,
typed list and object values below, but the code violates it for every
float: encodeFloat writes a length byte equal to the mantissa varint
length plus four, and the Decoder.Decode float branch demands at least
that many payload bytes plus two, which the encoding never has, so
decoding the encoding of the float 0.5 (bit pattern 0x3FE0000000000000)
fails with an insufficient-data error instead of returning the float. -/
theorem claim_C1_roundtrip :
    defaultEncoder.Encode (.goInt 47) = .ok [0, 5, 1, 94] ∧
    defaultDecoder.Decode [0, 5, 1, 94] = .ok (.dInt 47) ∧
    defaultEncoder.Encode (.goUint (2 ^ 64 - 1)) =
      .ok [0, 6, 10, 255, 255, 255, 255, 255, 255, 255, 255, 255, 1] ∧
    defaultDecoder.Decode [0, 6, 10, 255, 255, 255, 255, 255, 255, 255, 255, 255, 1] =
      .ok (.dUint (2 ^ 64 - 1)) ∧
    defaultEncoder.Encode (.goString [104, 105]) = .ok [0, 3, 1, 2, 104, 105] ∧
    defaultDecoder.Decode [0, 3, 1, 2, 104, 105] = .ok (.dString [104, 105]) ∧
    defaultEncoder.Encode (.goBool true) = .ok [0, 1] ∧
    defaultDecoder.Decode [0, 1] = .ok (.dBool true) ∧
    defaultEncoder.Encode (.goByte 200) = .ok [0, 4, 200] ∧
    defaultDecoder.Decode [0, 4, 200] = .ok (.dByte 200) ∧
    defaultEncoder.Encode (.goBytes [1, 2, 3]) = .ok [0, 8, 1, 3, 1, 2, 3] ∧
    defaultDecoder.Decode [0, 8, 1, 3, 1, 2, 3] = .ok (.dBlob [1, 2, 3]) ∧
    defaultEncoder.Encode (.goTime 1705317045123) =
      .ok [0, 9, 131, 19, 209, 12, 141, 1, 0, 0] ∧
    defaultDecoder.Decode [0, 9, 131, 19, 209, 12, 141, 1, 0, 0] =
      .ok (.dTimestamp 1705317045123) ∧
    defaultEncoder.Encode (.goBoolList [true, false, true]) =
      .ok [0, 11, 1, 6, 1, 1, 3, 1, 0, 1] ∧
    defaultDecoder.Decode [0, 11, 1, 6, 1, 1, 3, 1, 0, 1] =
      .ok (.dBoolList [true, false, true]) ∧
    defaultEncoder.Encode (.goIntList [1, 2, 3]) =
      .ok [0, 11, 1, 9, 5, 1, 3, 1, 2, 1, 4, 1, 6] ∧
    defaultDecoder.Decode [0, 11, 1, 9, 5, 1, 3, 1, 2, 1, 4, 1, 6] =
      .ok (.dIntList [1, 2, 3]) ∧
    defaultEncoder.Encode (.goMap [([97], .goInt 1)]) =
      .ok [0, 12, 1, 7, 1, 5, 1, 97, 5, 1, 2] ∧
    defaultDecoder.Decode [0, 12, 1, 7, 1, 5, 1, 97, 5, 1, 2] =
      .ok (.dObj [([97], .dInt 1)]) ∧
    defaultEncoder.Encode .goNil = .ok [0, 0] ∧
    defaultDecoder.Decode [0, 0] = .ok .dNull ∧
    defaultEncoder.Encode (.goFloat 0x3FE0000000000000) = .ok [0, 7, 5, 254, 3, 0] ∧
    defaultDecoder.Decode [0, 7, 5, 254, 3, 0] = .error (.inner .insufficientData) := by
  refine ⟨?_, ?_, ?_, ?_, ?_, ?_, ?_, ?_, ?_, ?_, ?_, ?_, ?_, ?_, ?_, ?_, ?_, ?_,
    ?_, ?_, ?_, ?_, ?_, ?_⟩
  all_goals first
    | rfl
    | (simp only [Encoder.Encode, eencode, eencodeFields, eencodeListElems]; rfl)

/-- C2: the claim states that for every supported value the element sizer
applied to the encoding with the version byte stripped returns exactly
the remaining byte count.  This holds for the sampled values below, but
it fails for every float: encodeFloat writes a length byte equal to the
mantissa varint length plus four, so for the float 1.5 (bit pattern
0x3FF8000000000000, an eight-byte mantissa varint) the sizer reports
2 + 12 = 14 bytes while the encoding without its version byte occupies
only 12, violating size + 1 = total length (15 against 13). -/
theorem claim_C2_skippability :
    getElementSize [5, 1, 94] = .ok 3 ∧
    ([0, 5, 1, 94] : List Nat).length = 3 + 1 ∧
    getElementSize [3, 1, 2, 104, 105] = .ok 5 ∧
    ([0, 3, 1, 2, 104, 105] : List Nat).length = 5 + 1 ∧
    getElementSize [0] = .ok 1 ∧
    getElementSize [1] = .ok 1 ∧
    getElementSize [4, 200] = .ok 2 ∧
    getElementSize [8, 1, 3, 1, 2, 3] = .ok 6 ∧
    getElementSize [9, 131, 19, 209, 12, 141, 1, 0, 0] = .ok 9 ∧
    getElementSize [11, 1, 6, 1, 1, 3, 1, 0, 1] = .ok 9 ∧
    getElementSize [12, 1, 7, 1, 5, 1, 97, 5, 1, 2] = .ok 10 ∧
    defaultEncoder.Encode (.goFloat 0x3FF8000000000000) =
      .ok [0, 7, 12, 255, 3, 128, 128, 128, 128, 128, 128, 128, 4] ∧
    getElementSize [7, 12, 255, 3, 128, 128, 128, 128, 128, 128, 128, 4] = .ok 14 ∧
    ([0, 7, 12, 255, 3, 128, 128, 128, 128, 128, 128, 128, 4] : List Nat).length = 13 ∧
    14 + 1 ≠ 13 := by
  refine ⟨?_, ?_, ?_, ?_, ?_, ?_, ?_, ?_, ?_, ?_, ?_, ?_, ?_, ?_, ?_⟩
  all_goals first
    | rfl
    | decide
    | (simp only [Encoder.Encode, eencode, eencodeFields, eencodeListElems]; rfl)

/-- C3: the claim states that the float length byte L equals exactly two
plus the number of mantissa varint bytes and that the decode path
accepts it, so floats round-trip.  The code writes L equal to the
mantissa varint length PLUS FOUR (the total buffer size including the
kind and length bytes): for 0.5 the mantissa varint is one byte yet the
written length byte is 5, not 3, and the Decoder.Decode float branch,
which requires at least 2 + L payload bytes, therefore rejects every
top-level float encoding with an insufficient-data error. -/
theorem claim_C3_float_length :
    encodeFloat 0x3FE0000000000000 = [typeFloat, 1 + 4, 254, 3, 0] ∧
    (putUvarint (decomposeFloat64 0x3FE0000000000000).2).length = 1 ∧
    (1 + 4 : Nat) ≠ 2 + 1 ∧
    defaultEncoder.Encode (.goFloat 0x3FE0000000000000) = .ok [0, 7, 5, 254, 3, 0] ∧
    defaultDecoder.Decode [0, 7, 5, 254, 3, 0] = .error (.inner .insufficientData) := by
  refine ⟨?_, ?_, ?_, ?_, ?_⟩
  all_goals first
    | rfl
    | decide
    | (simp only [Encoder.Encode, eencode, eencodeFields, eencodeListElems]; rfl)

/-- C5: fewer than two input bytes make the top-level decode fail with
the insufficient-data error; with at least two bytes and a nonzero first
byte, Decoder.Decode returns the unsupported-version error exactly in
strict mode, and in lenient mode it proceeds to the internal decoder on
the remaining bytes and never returns a version error. -/
theorem claim_C5_version_gate (d : Decoder) (data : List Nat) :
    (data.length < 2 → d.Decode data = .error .insufficientTop) ∧
    (2 ≤ data.length → data.getD 0 0 ≠ versionByte → d.strictMode = true →
      d.Decode data = .error (.unsupportedVersion (data.getD 0 0))) ∧
    (2 ≤ data.length → d.strictMode = false →
      d.Decode data = (d.decode 0 0 (data.drop 1)).mapError .inner ∧
      ∀ v, d.Decode data ≠ .error (.unsupportedVersion v)) := by
  refine ⟨?_, ?_, ?_⟩
  · intro h
    unfold Decoder.Decode
    rw [if_pos h]
  · intro hlen hv hs
    unfold Decoder.Decode
    rw [if_neg (by omega)]
    simp only []
    rw [if_pos ⟨hv, hs⟩]
  · intro hlen hs
    have hmain : d.Decode data = (d.decode 0 0 (data.drop 1)).mapError .inner := by
      unfold Decoder.Decode
      rw [if_neg (by omega)]
      simp only []
      rw [if_neg (by simp [hs])]
    refine ⟨hmain, ?_⟩
    intro v
    rw [hmain]
    cases d.decode 0 0 (data.drop 1) with
    | error e => simp [Except.mapError]
    | ok val => simp [Except.mapError]

/-- C5 witness: the three branches at concrete inputs; the empty input
is rejected for size, a nonzero version byte is rejected in strict mode
only, and in lenient mode the decode continues and succeeds. -/
theorem claim_C5_version_gate_witness :
    defaultDecoder.Decode [] = .error .insufficientTop ∧
    Decoder.Decode { defaultDecoder with strictMode := true } [1, 0] =
      .error (.unsupportedVersion 1) ∧
    defaultDecoder.Decode [1, 5, 1, 94] =
      (defaultDecoder.decode 0 0 [5, 1, 94]).mapError .inner := by
  refine ⟨(claim_C5_version_gate defaultDecoder []).1 (by decide),
    (claim_C5_version_gate { defaultDecoder with strictMode := true } [1, 0]).2.1
      (by decide) (by decide) rfl,
    ((claim_C5_version_gate defaultDecoder [1, 5, 1, 94]).2.2 (by decide) rfl).1⟩

/-- C6: the empty string encodes as the string kind byte, a length byte
of 1 and a zero length varint with no body; decoding it returns the
empty string, which is neither null nor an error, and the empty-string
and nil encodings differ in their kind byte. -/
theorem claim_C6_empty_string :
    defaultEncoder.Encode (.goString []) = .ok [versionByte, typeString, 1, 0] ∧
    defaultDecoder.Decode [versionByte, typeString, 1, 0] = .ok (.dString []) ∧
    DVal.dString [] ≠ DVal.dNull ∧
    defaultEncoder.Encode .goNil = .ok [versionByte, typeNull] ∧
    typeString ≠ typeNull := by
  refine ⟨?_, ?_, ?_, ?_, ?_⟩
  all_goals first
    | rfl
    | decide
    | exact fun h => DVal.noConfusion h
    | (simp only [Encoder.Encode, eencode, eencodeFields, eencodeListElems]; rfl)

/-- C7: every int64 encodes as the int kind byte, one length byte, then
exactly that many bytes of the base-128 varint of its zig-zag transform;
every uint64 likewise without the transform; the top-level encoding of
47 is 00 05 01 5E and that of the maximal uint64 is
00 06 0A FF FF FF FF FF FF FF FF FF 01. -/
theorem claim_C7_integer_layout :
    (∀ i : Int, -(2 ^ 63) ≤ i → i < 2 ^ 63 →
      defaultEncoder.Encode (.goInt i) =
        .ok (versionByte :: typeInt :: (putUvarint (zigzag i)).length ::
          putUvarint (zigzag i))) ∧
    (∀ u : Nat, u < 2 ^ 64 →
      defaultEncoder.Encode (.goUint u) =
        .ok (versionByte :: typeUint :: (putUvarint u).length :: putUvarint u)) ∧
    defaultEncoder.Encode (.goInt 47) = .ok [0, 5, 1, 94] ∧
    defaultEncoder.Encode (.goUint (2 ^ 64 - 1)) =
      .ok [0, 6, 10, 255, 255, 255, 255, 255, 255, 255, 255, 255, 1] := by
  refine ⟨?_, ?_, ?_, ?_⟩
  · intro i _ _
    simp only [Encoder.Encode, eencode]
    rfl
  · intro u _
    simp only [Encoder.Encode, eencode]
    rfl
  · simp only [Encoder.Encode, eencode]
    rfl
  · simp only [Encoder.Encode, eencode]
    rfl

/-- C7 witness: the general layout facts instantiated at 47 and at the
maximal uint64. -/
theorem claim_C7_integer_layout_witness :
    defaultEncoder.Encode (.goInt 47) =
      .ok (versionByte :: typeInt :: (putUvarint (zigzag 47)).length ::
        putUvarint (zigzag 47)) ∧
    defaultEncoder.Encode (.goUint (2 ^ 64 - 1)) =
      .ok (versionByte :: typeUint :: (putUvarint (2 ^ 64 - 1)).length ::
        putUvarint (2 ^ 64 - 1)) :=
  ⟨claim_C7_integer_layout.1 47 (by norm_num) (by norm_num),
   claim_C7_integer_layout.2.1 (2 ^ 64 - 1) (by norm_num)⟩

/-- C9: typed nil slices and nil maps are routed by isNullValue to the
null encoder, producing the version byte followed by the null kind byte,
byte-identical to encoding nil itself, and that encoding decodes to
null, which is neither an empty list nor an empty map; non-nil empty
slices and empty maps do not take the null path: they produce the
untyped-list and object kind bytes instead. -/
theorem claim_C9_nil_null :
    defaultEncoder.Encode .goNilSlice = .ok [versionByte, typeNull] ∧
    defaultEncoder.Encode .goNilMap = .ok [versionByte, typeNull] ∧
    defaultEncoder.Encode .goNil = .ok [versionByte, typeNull] ∧
    defaultDecoder.Decode [versionByte, typeNull] = .ok .dNull ∧
    DVal.dNull ≠ DVal.dList [] ∧
    DVal.dNull ≠ DVal.dObj [] ∧
    defaultEncoder.Encode (.goBoolList []) = .ok [versionByte, typeUntypedList, 1, 0] ∧
    defaultEncoder.Encode (.goList []) = .ok [versionByte, typeUntypedList, 1, 0] ∧
    defaultEncoder.Encode (.goMap []) = .ok [versionByte, typeObject, 1, 0] ∧
    typeUntypedList ≠ typeNull ∧
    typeObject ≠ typeNull := by
  refine ⟨?_, ?_, ?_, ?_, ?_, ?_, ?_, ?_, ?_, ?_, ?_⟩
  all_goals first
    | rfl
    | decide
    | exact fun h => DVal.noConfusion h
    | (simp only [Encoder.Encode, eencode, eencodeFields, eencodeListElems]; rfl)

set_option maxHeartbeats 2000000 in
/-- C10: when decoding a Bool typed list whose element region length
equals the declared count, every element octet equal to 1 decodes to
true and every other octet decodes to false, without an error. -/
theorem claim_C10_bool_typed_list (bs : List Nat)
    (_hbytes : ∀ b ∈ bs, b < 256) (hlen : bs.length < 2 ^ 60) :
    decodeTypedList ((typedListAssemble typeBoolTrue bs.length bs).drop 1) =
      .ok (.dBoolList (bs.map fun b => b = 1)) := by
  have h60 : (2 : Nat) ^ 60 = 1152921504606846976 := by norm_num
  have h64 : (2 : Nat) ^ 64 = 18446744073709551616 := by norm_num
  have hcvle : (putUvarint bs.length).length ≤ 10 := putUvarint_length_le _
  have hcv1 : 0 < (putUvarint bs.length).length := putUvarint_length_pos _
  have hcount : bs.length < 2 ^ 64 := by omega
  have hTlt : 2 + (putUvarint bs.length).length + bs.length < 2 ^ 64 := by omega
  have hpT1 : 0 < (putUvarint (2 + (putUvarint bs.length).length + bs.length)).length :=
    putUvarint_length_pos _
  have hin : (typedListAssemble typeBoolTrue bs.length bs).drop 1 =
      (putUvarint (2 + (putUvarint bs.length).length + bs.length)).length ::
        (putUvarint (2 + (putUvarint bs.length).length + bs.length) ++
          (typeBoolTrue :: ((putUvarint bs.length).length :: (putUvarint bs.length ++ bs)))) := by
    simp only [typedListAssemble, encodeUint, List.drop_succ_cons, List.drop_zero,
      List.length_cons]
    rw [show 1 + ((putUvarint bs.length).length + 1) + bs.length
          = 2 + (putUvarint bs.length).length + bs.length by omega]
    simp [List.append_assoc]
  have hrT : decodeUint (putUvarint (2 + (putUvarint bs.length).length + bs.length)) =
      .ok (2 + (putUvarint bs.length).length + bs.length) :=
    decodeUint_putUvarint_nil _ hTlt
  have hrC : decodeUint (putUvarint bs.length) = .ok bs.length :=
    decodeUint_putUvarint_nil _ hcount
  rw [hin]
  simp only [decodeTypedList, goSlice_cons_inner, hrT]
  rw [goSlice_cons_after]
  case hT => simp [typeBoolTrue]; omega
  simp only [goSlice_cons_inner, hrC, drop_cons_after]
  simp only [List.length_cons, List.length_append]
  split
  · exact absurd (by assumption) (by omega)
  split
  · exact absurd (by assumption) (by omega)
  split
  · exact absurd (by assumption) (by omega)
  split
  · exact absurd (by assumption) (by omega)
  simp [typeBoolTrue, typeString, typeByte, typeInt, typeUint, typeFloat]

/-- C10 witness: the element octets 0, 1, 2 and 255 decode to false,
true, false and false. -/
theorem claim_C10_bool_typed_list_witness :
    decodeTypedList ((typedListAssemble typeBoolTrue 4 [0, 1, 2, 255]).drop 1) =
      .ok (.dBoolList [false, true, false, false]) :=
  claim_C10_bool_typed_list [0, 1, 2, 255] (by decide) (by norm_num)

theorem goSlice_cons_mid (a : Nat) (w t r : List Nat) (T : Nat) (hT : T = t.length) :
    goSlice (a :: (w ++ (t ++ r))) (1 + w.length) (1 + w.length + T) = t := by
  subst hT
  have h := goSlice_inner (a :: w) t r
  simp only [List.cons_append, List.length_cons, List.append_assoc] at h
  rw [show 1 + w.length = w.length + 1 by omega]
  simpa [List.append_assoc] using h

theorem mkFieldEntry_length (k b : List Nat) :
    (mkFieldEntry k b).length =
      1 + (putUvarint (1 + k.length + b.length)).length + (1 + k.length + b.length) := by
  simp [mkFieldEntry, encodeUint]
  omega

set_option maxHeartbeats 4000000 in
theorem decodeFieldEntryF_mkFieldEntry (k b s : List Nat) (v : DVal) (g : Nat)
    (hes : 1 + k.length + b.length < 2 ^ 64)
    (hv : decodeValueF g b = .ok v) :
    decodeFieldEntryF (g + 1) (mkFieldEntry k b ++ s) =
      .ok (k, v, 1 + (putUvarint (1 + k.length + b.length)).length +
        (1 + k.length + b.length)) := by
  have hin : mkFieldEntry k b ++ s =
      (putUvarint (1 + k.length + b.length)).length ::
        (putUvarint (1 + k.length + b.length) ++
          ((k.length :: (k ++ b)) ++ s)) := by
    simp [mkFieldEntry, encodeUint, List.append_assoc]
  have hrE : decodeUint (putUvarint (1 + k.length + b.length)) =
      .ok (1 + k.length + b.length) := decodeUint_putUvarint_nil _ hes
  rw [hin]
  simp only [decodeFieldEntryF, goSlice_cons_inner, hrE]
  rw [goSlice_cons_mid]
  case hT => simp; omega
  simp only [List.length_cons, List.length_append]
  split
  · exact absurd (by assumption) (by omega)
  split
  · exact absurd (by assumption) (by omega)
  split
  · exact absurd (by assumption) (by omega)
  rw [show (1 : Nat) + k.length = k.length + 1 by omega]
  simp only [List.drop_succ_cons, drop_prefix_append]
  rw [hv]
  have hgs : goSlice (k.length :: (k ++ b)) 1 (k.length + 1) = k := by
    have h2 := goSlice_cons_inner k.length k b
    rwa [Nat.add_comm 1 k.length] at h2
  rw [hgs]

set_option maxHeartbeats 4000000 in
theorem decodeObjectLoopF_entryStream
    (entries : List (List Nat × List Nat × DVal)) :
    ∀ (acc : List (List Nat × DVal)) (fuel : Nat),
    (∀ e ∈ entries, 1 + e.1.length + e.2.1.length < 2 ^ 64) →
    (∀ e ∈ entries, ∀ g, e.2.1.length < g → decodeValueF g e.2.1 = .ok e.2.2) →
    ((entries.map fun e => mkFieldEntry e.1 e.2.1).flatten).length < fuel →
    decodeObjectLoopF fuel ((entries.map fun e => mkFieldEntry e.1 e.2.1).flatten) acc =
      .ok (entries.foldl (fun a e => mapUpsert a e.1 e.2.2) acc) := by
  induction entries with
  | nil =>
    intro acc fuel _ _ hfuel
    match fuel, hfuel with
    | f + 1, _ => simp [decodeObjectLoopF]
  | cons e rest ih =>
    intro acc fuel hsize hval hfuel
    obtain ⟨k, b, v⟩ := e
    simp only [List.map_cons, List.flatten_cons] at hfuel ⊢
    have hn1 : 0 < (putUvarint (1 + k.length + b.length)).length :=
      putUvarint_length_pos _
    have hmk3 : 3 + b.length ≤ (mkFieldEntry k b).length := by
      rw [mkFieldEntry_length]
      omega
    have hfge : (mkFieldEntry k b).length +
        ((rest.map fun e => mkFieldEntry e.1 e.2.1).flatten).length < fuel := by
      simpa using hfuel
    obtain ⟨f, rfl⟩ : ∃ f, fuel = f + 1 := ⟨fuel - 1, by omega⟩
    obtain ⟨g, rfl⟩ : ∃ g, f = g + 1 := ⟨f - 1, by omega⟩
    simp only [decodeObjectLoopF]
    split
    · rename_i h
      exfalso
      rw [List.length_append, mkFieldEntry_length] at h
      omega
    · rw [decodeFieldEntryF_mkFieldEntry k b _ v g
        (hsize (k, b, v) (List.mem_cons_self _ _))
        (hval (k, b, v) (List.mem_cons_self _ _) g (show b.length < g by omega))]
      simp only [← mkFieldEntry_length, drop_prefix_append]
      rw [List.foldl_cons]
      exact ih (mapUpsert acc k v) (g + 1)
        (fun e he => hsize e (by simp [he]))
        (fun e he => hval e (by simp [he]))
        (by omega)

theorem mapLookup_foldl_upsert (entries : List (List Nat × List Nat × DVal)) :
    ∀ (acc : List (List Nat × DVal)) (k : List Nat),
    mapLookup (entries.foldl (fun a e => mapUpsert a e.1 e.2.2) acc) k =
      match lastVal entries k with
      | some v => some v
      | none => mapLookup acc k := by
  induction entries with
  | nil => intro acc k; simp [lastVal]
  | cons e rest ih =>
    intro acc k
    obtain ⟨k0, b0, v0⟩ := e
    rw [List.foldl_cons, ih]
    simp only [lastVal]
    cases hlv : lastVal rest k with
    | some v => simp
    | none =>
      simp only []
      rw [mapLookup_upsert]
      by_cases h : k0 = k <;> simp [h]

theorem entryStream_eq_flatten (entries : List (List Nat × List Nat × DVal)) :
    entryStream (entries.map fun e => (e.1, e.2.1)) =
      (entries.map fun e => mkFieldEntry e.1 e.2.1).flatten := by
  simp only [entryStream, List.map_map]
  rfl

set_option maxHeartbeats 4000000 in
theorem decodeObject_entryStream (entries : List (List Nat × List Nat × DVal))
    (hsize : ∀ e ∈ entries, 1 + e.1.length + e.2.1.length < 2 ^ 64)
    (hval : ∀ e ∈ entries, ∀ g, e.2.1.length < g → decodeValueF g e.2.1 = .ok e.2.2)
    (htot : (entryStream (entries.map fun e => (e.1, e.2.1))).length < 2 ^ 64) :
    decodeObject (objectBody (entryStream (entries.map fun e => (e.1, e.2.1)))) =
      .ok (entries.foldl (fun a e => mapUpsert a e.1 e.2.2) []) := by
  rw [entryStream_eq_flatten] at htot ⊢
  have hin : objectBody ((entries.map fun e => mkFieldEntry e.1 e.2.1).flatten) =
      (putUvarint ((entries.map fun e => mkFieldEntry e.1 e.2.1).flatten).length).length ::
        (putUvarint ((entries.map fun e => mkFieldEntry e.1 e.2.1).flatten).length ++
          (entries.map fun e => mkFieldEntry e.1 e.2.1).flatten) := by
    simp [objectBody, encodeUint]
  have hrL : decodeUint
      (putUvarint ((entries.map fun e => mkFieldEntry e.1 e.2.1).flatten).length) =
      .ok ((entries.map fun e => mkFieldEntry e.1 e.2.1).flatten).length :=
    decodeUint_putUvarint_nil _ htot
  have hm1 : 0 < (putUvarint ((entries.map fun e =>
      mkFieldEntry e.1 e.2.1).flatten).length).length := putUvarint_length_pos _
  rw [hin]
  simp only [decodeObject, decodeObjectF, goSlice_cons_inner, hrL]
  rw [goSlice_cons_after]
  case hT => rfl
  simp only [List.length_cons, List.length_append]
  split
  · exact absurd (by assumption) (by omega)
  split
  · exact absurd (by assumption) (by omega)
  exact decodeObjectLoopF_entryStream entries []
    ((putUvarint ((entries.map fun e => mkFieldEntry e.1 e.2.1).flatten).length).length +
      ((entries.map fun e => mkFieldEntry e.1 e.2.1).flatten).length + 1)
    hsize hval (by omega)

/-- C8: for every well-formed encoded object entry stream, including
streams carrying several entries with the same key, decodeObject
succeeds, the result is the left fold of Go map assignments over the
entries in stream order, and each key maps to the value of the last
entry carrying it. -/
theorem claim_C8_duplicate_keys (entries : List (List Nat × List Nat × DVal))
    (_hkey : ∀ e ∈ entries, e.1.length ≤ 255)
    (hsize : ∀ e ∈ entries, 1 + e.1.length + e.2.1.length < 2 ^ 64)
    (hval : ∀ e ∈ entries, ∀ g, e.2.1.length < g → decodeValueF g e.2.1 = .ok e.2.2)
    (htot : (entryStream (entries.map fun e => (e.1, e.2.1))).length < 2 ^ 64) :
    decodeObject (objectBody (entryStream (entries.map fun e => (e.1, e.2.1)))) =
      .ok (entries.foldl (fun a e => mapUpsert a e.1 e.2.2) []) ∧
    ∀ k, mapLookup (entries.foldl (fun a e => mapUpsert a e.1 e.2.2) []) k =
      lastVal entries k := by
  refine ⟨decodeObject_entryStream entries hsize hval htot, ?_⟩
  intro k
  rw [mapLookup_foldl_upsert]
  cases lastVal entries k <;> simp [mapLookup]

/-- C8 witness: a stream with two entries for the key 97 (value int 1 then
int 2) and one entry for 98 decodes to the map holding int 2 at 97. -/
theorem claim_C8_duplicate_keys_witness :
    decodeObject (objectBody (entryStream [([97], [5, 1, 2]), ([97], [5, 1, 4]), ([98], [1])])) =
      .ok [([97], .dInt 2), ([98], .dBool true)] ∧
    mapLookup [([97], DVal.dInt 2), ([98], DVal.dBool true)] [97] = some (.dInt 2) ∧
    mapLookup [([97], DVal.dInt 2), ([98], DVal.dBool true)] [98] = some (.dBool true) := by
  have h := claim_C8_duplicate_keys
    [([97], [5, 1, 2], .dInt 1), ([97], [5, 1, 4], .dInt 2), ([98], [1], .dBool true)]
    (by decide) (by decide)
    (by
      intro e he g hg
      simp only [List.mem_cons, List.not_mem_nil, or_false] at he
      rcases he with rfl | rfl | rfl
      · cases g with
        | zero => simp at hg
        | succ g2 => rfl
      · cases g with
        | zero => simp at hg
        | succ g2 => rfl
      · cases g with
        | zero => simp at hg
        | succ g2 => rfl)
    (by decide)
  exact ⟨h.1, h.2 [97], h.2 [98]⟩

theorem drop_mkFieldEntry_append (k b s : List Nat) :
    (mkFieldEntry k b ++ s).drop
      (1 + (putUvarint (1 + k.length + b.length)).length + (1 + k.length + b.length)) = s := by
  rw [← mkFieldEntry_length]
  exact drop_prefix_append _ _

set_option maxHeartbeats 4000000 in
theorem decodeSelLoopF_step (wanted : List (List Nat)) (k b s : List Nat)
    (v : DVal) (acc : List (List Nat × DVal)) (g : Nat)
    (hes : 1 + k.length + b.length < 2 ^ 64)
    (hv : decodeValueSelectiveF wanted g b = .ok v)
    (hacc : acc.length < wanted.length) :
    decodeSelLoopF wanted (g + 1) (mkFieldEntry k b ++ s) acc =
      if k ∈ wanted then decodeSelLoopF wanted g s (mapUpsert acc k v)
      else decodeSelLoopF wanted g s acc := by
  have hdrop := drop_mkFieldEntry_append k b s
  have hin : mkFieldEntry k b ++ s =
      (putUvarint (1 + k.length + b.length)).length ::
        (putUvarint (1 + k.length + b.length) ++
          ((k.length :: (k ++ b)) ++ s)) := by
    simp [mkFieldEntry, encodeUint, List.append_assoc]
  have hrE : decodeUint (putUvarint (1 + k.length + b.length)) =
      .ok (1 + k.length + b.length) := decodeUint_putUvarint_nil _ hes
  rw [hin] at hdrop ⊢
  simp only [decodeSelLoopF, goSlice_cons_inner, hrE]
  rw [if_pos (by refine ⟨by simp, hacc⟩)]
  rw [goSlice_cons_mid]
  case hT => simp; omega
  simp only [List.length_cons, List.length_append]
  split
  · exact absurd (by assumption) (by omega)
  split
  · exact absurd (by assumption) (by omega)
  split
  · exact absurd (by assumption) (by omega)
  rw [show (1 : Nat) + k.length = k.length + 1 by omega]
  simp only [List.drop_succ_cons, drop_prefix_append]
  rw [hv]
  have hgs : goSlice (k.length :: (k ++ b)) 1 (k.length + 1) = k := by
    have h2 := goSlice_cons_inner k.length k b
    rwa [Nat.add_comm 1 k.length] at h2
  rw [hgs]
  rw [show k.length + 1 + b.length = 1 + k.length + b.length by omega]
  rw [hdrop]
  by_cases hw : k ∈ wanted
  · rw [if_pos hw, if_pos (by simp [List.elem_iff, hw])]
  · rw [if_neg hw, if_neg (by simp [List.elem_iff, hw])]

set_option maxHeartbeats 4000000 in
theorem decodeSelLoopF_entryStream (wanted : List (List Nat))
    (entries : List (List Nat × List Nat × DVal)) :
    ∀ (acc : List (List Nat × DVal)) (fuel : Nat),
    (∀ e ∈ entries, 1 + e.1.length + e.2.1.length < 2 ^ 64) →
    (∀ e ∈ entries, ∀ g, e.2.1.length < g →
        decodeValueSelectiveF wanted g e.2.1 = .ok e.2.2) →
    ((entries.map fun e => mkFieldEntry e.1 e.2.1).flatten).length < fuel →
    (entries.map fun e => e.1).Nodup →
    wanted.Nodup →
    (acc.map fun p => p.1).Nodup →
    (∀ p ∈ acc, p.1 ∈ wanted) →
    (∀ e ∈ entries, ∀ p ∈ acc, e.1 ≠ p.1) →
    (∀ w ∈ wanted, (∃ p ∈ acc, p.1 = w) ∨ ∃ e ∈ entries, e.1 = w) →
    ∃ m, decodeSelLoopF wanted fuel
        ((entries.map fun e => mkFieldEntry e.1 e.2.1).flatten) acc = .ok m ∧
      ∀ k, mapLookup m k =
        match mapLookup acc k with
        | some v => some v
        | none => if k ∈ wanted then lastVal entries k else none := by
  induction entries with
  | nil =>
    intro acc fuel _ _ hfuel _ _ _ _ _ _
    obtain ⟨f, rfl⟩ : ∃ f, fuel = f + 1 := ⟨fuel - 1, by omega⟩
    refine ⟨acc, by simp [decodeSelLoopF], ?_⟩
    intro k
    cases h : mapLookup acc k with
    | some v => simp
    | none => simp [lastVal]
  | cons e rest ih =>
    intro acc fuel hsize hval hfuel hknodup hwnodup haccnodup haccsub hdisj hcover
    obtain ⟨k0, b0, v0⟩ := e
    simp only [List.map_cons, List.flatten_cons] at hfuel ⊢
    have hn1 : 0 < (putUvarint (1 + k0.length + b0.length)).length :=
      putUvarint_length_pos _
    have hmk3 : 3 + b0.length ≤ (mkFieldEntry k0 b0).length := by
      rw [mkFieldEntry_length]
      omega
    have hfge : (mkFieldEntry k0 b0).length +
        ((rest.map fun e => mkFieldEntry e.1 e.2.1).flatten).length < fuel := by
      simpa using hfuel
    obtain ⟨f, rfl⟩ : ∃ f, fuel = f + 1 := ⟨fuel - 1, by omega⟩
    obtain ⟨g, rfl⟩ : ∃ g, f = g + 1 := ⟨f - 1, by omega⟩
    simp only [List.map_cons, List.mem_cons, forall_eq_or_imp] at hknodup
    have hk0rest : k0 ∉ rest.map fun e => e.1 := by
      have := List.nodup_cons.mp hknodup
      exact this.1
    have hrestnodup : (rest.map fun e => e.1).Nodup := (List.nodup_cons.mp hknodup).2
    by_cases hcond : acc.length < wanted.length
    · -- the loop takes the entry
      rw [decodeSelLoopF_step wanted k0 b0 _ v0 acc (g + 1)
        (hsize (k0, b0, v0) (List.mem_cons_self _ _))
        (hval (k0, b0, v0) (List.mem_cons_self _ _) (g + 1) (show b0.length < g + 1 by omega))
        hcond]
      have hk0acc : k0 ∉ acc.map fun p => p.1 := by
        intro hm
        obtain ⟨p, hp, hpk⟩ := List.mem_map.mp hm
        exact hdisj (k0, b0, v0) (List.mem_cons_self _ _) p hp hpk.symm
      by_cases hw : k0 ∈ wanted
      · rw [if_pos hw]
        have hupsert : mapUpsert acc k0 v0 = acc ++ [(k0, v0)] := by
          apply mapUpsert_not_mem
          intro hm
          obtain ⟨p, hp, hpk⟩ := List.mem_map.mp hm
          exact hdisj (k0, b0, v0) (List.mem_cons_self _ _) p hp hpk.symm
        obtain ⟨m, hm, hlook⟩ := ih (mapUpsert acc k0 v0) (g + 1)
          (fun e he => hsize e (List.mem_cons_of_mem _ he))
          (fun e he => hval e (List.mem_cons_of_mem _ he))
          (by omega)
          hrestnodup
          hwnodup
          (by
            rw [hupsert]
            simp only [List.map_append]
            rw [List.nodup_append_comm]
            simp only [List.map_cons, List.map_nil, List.singleton_append]
            exact List.nodup_cons.mpr ⟨hk0acc, haccnodup⟩)
          (by
            intro p hp
            rw [hupsert] at hp
            rcases List.mem_append.mp hp with h1 | h1
            · exact haccsub p h1
            · simp only [List.mem_singleton] at h1
              subst h1
              exact hw)
          (by
            intro e he p hp
            rw [hupsert] at hp
            rcases List.mem_append.mp hp with h1 | h1
            · exact hdisj e (List.mem_cons_of_mem _ he) p h1
            · simp only [List.mem_singleton] at h1
              subst h1
              intro hek
              exact hk0rest (List.mem_map.mpr ⟨e, he, hek⟩))
          (by
            intro w hwm
            rcases hcover w hwm with ⟨p, hp, hpw⟩ | ⟨e, he, hew⟩
            · exact Or.inl ⟨p, by rw [hupsert]; exact List.mem_append_left _ hp, hpw⟩
            · rcases List.mem_cons.mp he with rfl | he2
              · exact Or.inl ⟨(k0, v0), by rw [hupsert]; simp, hew⟩
              · exact Or.inr ⟨e, he2, hew⟩)
        refine ⟨m, hm, ?_⟩
        intro k
        rw [hlook, mapLookup_upsert]
        by_cases hk : k0 = k
        · subst hk
          rw [if_pos rfl]
          have haccnone : mapLookup acc k0 = none :=
            (mapLookup_eq_none_iff acc k0).mpr (by
              intro hm2
              obtain ⟨p, hp, hpk⟩ := List.mem_map.mp hm2
              exact hdisj (k0, b0, v0) (List.mem_cons_self _ _) p hp
                (by rw [hpk]))
          rw [haccnone]
          simp only [lastVal]
          rw [lastVal_eq_none rest k0 hk0rest]
          simp [hw]
        · rw [if_neg hk]
          have hlv : lastVal ((k0, b0, v0) :: rest) k = lastVal rest k := by
            simp only [lastVal]
            cases lastVal rest k with
            | some v => rfl
            | none => simp [hk]
          rw [hlv]
      · rw [if_neg hw]
        obtain ⟨m, hm, hlook⟩ := ih acc (g + 1)
          (fun e he => hsize e (List.mem_cons_of_mem _ he))
          (fun e he => hval e (List.mem_cons_of_mem _ he))
          (by omega)
          hrestnodup
          hwnodup
          haccnodup
          haccsub
          (fun e he => hdisj e (List.mem_cons_of_mem _ he))
          (by
            intro w hwm
            rcases hcover w hwm with ⟨p, hp, hpw⟩ | ⟨e, he, hew⟩
            · exact Or.inl ⟨p, hp, hpw⟩
            · rcases List.mem_cons.mp he with rfl | he2
              · exact absurd (show k0 ∈ wanted by rw [show k0 = w from hew]; exact hwm) hw
              · exact Or.inr ⟨e, he2, hew⟩)
        refine ⟨m, hm, ?_⟩
        intro k
        rw [hlook]
        have hk : ¬ k0 = k ∨ k ∉ wanted := by
          by_cases he : k0 = k
          · subst he
            exact Or.inr hw
          · exact Or.inl he
        cases h : mapLookup acc k with
        | some v => rfl
        | none =>
          simp only []
          by_cases hkw : k ∈ wanted
          · rw [if_pos hkw, if_pos hkw]
            have hkk0 : ¬ k0 = k := by
              intro he
              subst he
              exact hw hkw
            simp only [lastVal]
            cases lastVal rest k with
            | some v => rfl
            | none => simp [hkk0]
          · rw [if_neg hkw, if_neg hkw]
    · -- early stop: the accumulator already holds every wanted key
      simp only [decodeSelLoopF]
      rw [if_neg (fun hc => hcond hc.2)]
      refine ⟨acc, rfl, ?_⟩
      have hge : wanted.length ≤ acc.length := by omega
      have hwsub : ∀ x ∈ wanted, ∃ p ∈ acc, p.1 = x := by
        intro x hx
        have hsubF : (acc.map fun p => p.1).toFinset ⊆ wanted.toFinset := by
          intro y hy
          rw [List.mem_toFinset] at hy ⊢
          obtain ⟨p, hp, rfl⟩ := List.mem_map.mp hy
          exact haccsub p hp
        have hcard : wanted.toFinset.card ≤ (acc.map fun p => p.1).toFinset.card := by
          rw [List.toFinset_card_of_nodup hwnodup, List.toFinset_card_of_nodup haccnodup]
          simpa using hge
        have heq := Finset.eq_of_subset_of_card_le hsubF hcard
        have hx2 : x ∈ (acc.map fun p => p.1).toFinset := by
          rw [heq]
          exact List.mem_toFinset.mpr hx
        rw [List.mem_toFinset, List.mem_map] at hx2
        obtain ⟨p, hp, hpx⟩ := hx2
        exact ⟨p, hp, hpx⟩
      intro k
      cases h : mapLookup acc k with
      | some v => rfl
      | none =>
        simp only []
        by_cases hkw : k ∈ wanted
        · exfalso
          obtain ⟨p, hp, hpk⟩ := hwsub k hkw
          have := (mapLookup_eq_none_iff acc k).mp h
          exact this (List.mem_map.mpr ⟨p, hp, hpk⟩)
        · rw [if_neg hkw]

set_option maxHeartbeats 4000000 in
/-- C4 (corrected): selective decoding of a well-formed encoded object
returns exactly the requested keys, each bound to the value the
SELECTIVE value decoder produces for its entry body (for non-object
values this is the full-decode value; for nested objects it recurses
with the same wanted list, which is the correction), and no
non-requested key appears in the result. -/
theorem claim_C4_selective_fields (wanted : List (List Nat))
    (entries : List (List Nat × List Nat × DVal))
    (hknodup : (entries.map fun e => e.1).Nodup)
    (hwnodup : wanted.Nodup)
    (hsub : ∀ w ∈ wanted, w ∈ entries.map fun e => e.1)
    (hsize : ∀ e ∈ entries, 1 + e.1.length + e.2.1.length < 2 ^ 64)
    (hval : ∀ e ∈ entries, ∀ g, e.2.1.length < g →
        decodeValueSelectiveF wanted g e.2.1 = .ok e.2.2)
    (htot : (entryStream (entries.map fun e => (e.1, e.2.1))).length < 2 ^ 64) :
    ∃ m, decodeObjectSelective wanted
        (objectBody (entryStream (entries.map fun e => (e.1, e.2.1)))) = .ok m ∧
      ∀ k, mapLookup m k = if k ∈ wanted then lastVal entries k else none := by
  rw [entryStream_eq_flatten] at htot ⊢
  have hin : objectBody ((entries.map fun e => mkFieldEntry e.1 e.2.1).flatten) =
      (putUvarint ((entries.map fun e => mkFieldEntry e.1 e.2.1).flatten).length).length ::
        (putUvarint ((entries.map fun e => mkFieldEntry e.1 e.2.1).flatten).length ++
          (entries.map fun e => mkFieldEntry e.1 e.2.1).flatten) := by
    simp [objectBody, encodeUint]
  have hrL : decodeUint
      (putUvarint ((entries.map fun e => mkFieldEntry e.1 e.2.1).flatten).length) =
      .ok ((entries.map fun e => mkFieldEntry e.1 e.2.1).flatten).length :=
    decodeUint_putUvarint_nil _ htot
  have hm1 : 0 < (putUvarint ((entries.map fun e =>
      mkFieldEntry e.1 e.2.1).flatten).length).length := putUvarint_length_pos _
  rw [hin]
  simp only [decodeObjectSelective, decodeObjectSelectiveF, goSlice_cons_inner, hrL]
  rw [goSlice_cons_after]
  case hT => rfl
  simp only [List.length_cons, List.length_append]
  split
  · exact absurd (by assumption) (by omega)
  split
  · exact absurd (by assumption) (by omega)
  obtain ⟨m, hm, hlook⟩ := decodeSelLoopF_entryStream wanted entries []
    ((putUvarint ((entries.map fun e => mkFieldEntry e.1 e.2.1).flatten).length).length +
      ((entries.map fun e => mkFieldEntry e.1 e.2.1).flatten).length + 1)
    hsize hval (by omega)
    hknodup hwnodup (by simp) (by simp)
    (by simp)
    (by
      intro w hw
      refine Or.inr ?_
      obtain ⟨e, he, hew⟩ := List.mem_map.mp (hsub w hw)
      exact ⟨e, he, hew⟩)
  refine ⟨m, hm, ?_⟩
  intro k
  have := hlook k
  simpa [mapLookup] using this

/-- C4 witness: selective decoding of the two-entry object stream
(key 97 bool true, key 98 bool false) with wanted list holding only the
key 97 yields a map that holds bool true at 97 and nothing at 98. -/
theorem claim_C4_selective_fields_witness :
    ∃ m, decodeObjectSelective [[97]]
        (objectBody (entryStream ([([97], [1], DVal.dBool true),
          ([98], [2], DVal.dBool false)].map fun e => (e.1, e.2.1)))) = .ok m ∧
      ∀ k, mapLookup m k = if k ∈ [[97]] then
        lastVal [([97], [1], DVal.dBool true), ([98], [2], DVal.dBool false)] k
        else none := by
  exact claim_C4_selective_fields [[97]]
    [([97], [1], DVal.dBool true), ([98], [2], DVal.dBool false)]
    (by decide) (by decide) (by decide) (by decide)
    (by
      intro e he g hg
      simp only [List.mem_cons, List.not_mem_nil, or_false] at he
      rcases he with rfl | rfl
      · cases g with
        | zero => simp at hg
        | succ g2 => rfl
      · cases g with
        | zero => simp at hg
        | succ g2 => rfl)
    (by decide)

/-- C4 counterexample to the original claim: for the object holding at
key 97 the nested object that binds 98 to bool true, selecting the field
97 does NOT return the full-decode value at 97: the selective value
decoder recurses into the nested object with the same wanted list and
strips the inner key 98, so the selective result binds 97 to the empty
object while a full decode binds it to the one-field object. -/
theorem claim_C4_selective_fields_cex :
    defaultEncoder.Encode (.goMap [([97], .goMap [([98], .goBool true)])]) =
      .ok [0, 12, 1, 12, 1, 10, 1, 97, 12, 1, 5, 1, 3, 1, 98, 1] ∧
    Decoder.Decode { defaultDecoder with selectiveFields := [[97]] }
        [0, 12, 1, 12, 1, 10, 1, 97, 12, 1, 5, 1, 3, 1, 98, 1] =
      .ok (.dObj [([97], .dObj [])]) ∧
    defaultDecoder.Decode [0, 12, 1, 12, 1, 10, 1, 97, 12, 1, 5, 1, 3, 1, 98, 1] =
      .ok (.dObj [([97], .dObj [([98], .dBool true)])]) ∧
    DVal.dObj [([97], DVal.dObj [])] ≠
      DVal.dObj [([97], DVal.dObj [([98], DVal.dBool true)])] := by
  refine ⟨?_, ?_, ?_, ?_⟩
  · simp only [Encoder.Encode, eencode, eencodeFields, eencodeListElems]; rfl
  · rfl
  · rfl
  · simp

end Bogo
